import Mathlib

/-!
# Sharding connection pool (`conn_pool.go`)

A shallow embedding of the sharding-aware `ConnPool` of `conn_pool.go`:
the three dispatch entry points `ExecContext`, `QueryContext` and
`QueryRowContext`, the result merger `mergeResults`, the `mergedResult`
type, and the transaction methods `BeginTx`, `Commit` and `Rollback`.

The wrapped `gorm.ConnPool` is an arbitrary stateful object: it is a record of
transition functions over a state type `σ`.  Every call that the pool makes to
it is appended to a log kept in the `World`, so that statements such as
"exactly two underlying calls occur, in this order" are statements about that
log.
-/

namespace GormSharding

/-! ## Go values -/

/-- A Go `error` value that is not `nil`.  `ErrNoRows` is the sentinel
`sql.ErrNoRows` of `database/sql`; every other error value, whatever its
message, is an `other`. -/
inductive GoError where
  | ErrNoRows
  | other (msg : String)
  deriving DecidableEq, Repr

/-- A bound statement parameter (`any`). -/
inductive Value where
  | null
  | int (i : Int)
  | str (s : String)
  | bool (b : Bool)
  deriving DecidableEq, Repr

/-- An opaque `context.Context`. -/
structure Context where
  id : Nat
  deriving DecidableEq, Repr

/-- An opaque, non-nil `*sql.Rows` cursor. -/
structure Rows where
  handle : Nat
  deriving DecidableEq, Repr

/-- An opaque, non-nil `*sql.Row` accessor. -/
structure Row where
  handle : Nat
  deriving DecidableEq, Repr

/-- The value of an `int64` computation: the mathematical integer reduced to
the two's complement range `[-2^63, 2^63)`. -/
def int64Wrap (x : Int) : Int := (x + 2 ^ 63) % 2 ^ 64 - 2 ^ 63

/-- Addition of two `int64` (Go `+=` on `int64`, which wraps around). -/
def int64Add (a b : Int) : Int := int64Wrap (a + b)

/-- A non-nil `sql.Result`.  A `driver` result is any implementation other than
`mergedResult`: it is described by what its two methods return, each a Go pair
`(int64, error)`.  A `mergedResult` is the struct of `conn_pool.go` with its
field `rowsAffected`. -/
inductive SqlResult where
  | driver (lastInsertId : Int × Option GoError) (rowsAffected : Int × Option GoError)
  | mergedResult (rowsAffected : Int)
  deriving DecidableEq, Repr

/-- The method `LastInsertId` of a `sql.Result`; on a `mergedResult` it is
`return 0, sql.ErrNoRows`. -/
def SqlResult.LastInsertId : SqlResult → Int × Option GoError
  | .driver l _ => l
  | .mergedResult _ => (0, some GoError.ErrNoRows)

/-- The method `RowsAffected` of a `sql.Result`; on a `mergedResult` it is
`return r.rowsAffected, nil`. -/
def SqlResult.RowsAffected : SqlResult → Int × Option GoError
  | .driver _ r => r
  | .mergedResult n => (n, none)

/-- How a Go function call ends: it returns a value, or it panics (here only
by calling a method on a nil interface value). -/
inductive Outcome (α : Type) where
  | returned (a : α)
  | panicked
  deriving DecidableEq, Repr

/-! ## `strings.Split` -/

/-- The scan of `strings.Split` for a non-empty separator, on the characters
of the string: at a position where the separator starts, the current segment
ends and the separator is skipped (`skip` counts the characters of it still to
be passed over); elsewhere the character joins the current segment. -/
def splitChars (sep : List Char) : Nat → List Char → List (List Char)
  | _, [] => [[]]
  | skip + 1, _ :: cs => splitChars sep skip cs
  | 0, c :: cs =>
    if sep.isPrefixOf (c :: cs) then
      [] :: splitChars sep (sep.length - 1) cs
    else
      match splitChars sep 0 cs with
      | [] => [[c]]
      | seg :: rest => (c :: seg) :: rest

/-- The Go library function `strings.Split(s, sep)` for a non-empty `sep`:
the substrings of `s` between the successive, non-overlapping occurrences of
`sep`, leftmost first. -/
def stringsSplit (s sep : String) : List String :=
  (splitChars sep.toList 0 s.toList).map String.mk

/-- The fan-out delimiter of `ExecContext`. -/
def unionAll : String := " UNION ALL "

/-! ## The sharding context -/

/-- The six values returned by `pool.sharding.resolve(query, args...)`. -/
structure Resolved where
  ftQuery : String
  stQuery : String
  table : String
  newArgs : List Value
  needFullScan : Bool
  err : Option GoError
  deriving DecidableEq, Repr

/-- Modelled from the spec: the element type of `pool.sharding.configs`, whose
declaration is not in `conn_pool.go` (the spec's `ShardTableConfig`); the pool
reads only its field `DoubleWrite`. -/
structure Config where
  DoubleWrite : Bool
  deriving DecidableEq, Repr

/-- Modelled from the spec: the type `Sharding`, whose declaration is not in
`conn_pool.go`.  The pool uses its method `resolve` (the external Query
Resolver, taken here as an arbitrary function), its map `configs` (a lookup
that may find no entry) and its map `querys`, which is mutable and therefore
kept in the `World`. -/
structure Sharding where
  resolve : String → List Value → Resolved
  configs : String → Option Config

/-! ## The wrapped capability and the world -/

/-- The struct `sql.TxOptions`. -/
structure TxOptions where
  Isolation : Nat
  ReadOnly : Bool
  deriving DecidableEq, Repr

/-- An opaque, non-nil `gorm.ConnPool` value handed out by the wrapped
capability when it begins a transaction. -/
structure TxHandle where
  handle : Nat
  deriving DecidableEq, Repr

/-- The interface `gorm.TxCommitter`: the methods `Commit() error` and
`Rollback() error` of the object behind the wrapped capability. -/
structure TxCommitter (σ : Type) where
  Commit : σ → Option GoError × σ
  Rollback : σ → Option GoError × σ

/-- The interface `gorm.ConnPoolBeginner`: the method
`BeginTx(ctx, opt) (gorm.ConnPool, error)` of the object behind the wrapped
capability; `opt` is a pointer and may be nil, and so may each returned
value. -/
structure ConnPoolBeginner (σ : Type) where
  BeginTx : σ → Context → Option TxOptions → (Option TxHandle × Option GoError) × σ

/-- The embedded interface `gorm.ConnPool`, over the state `σ` of the object
behind it.  `ExecContext` and `QueryContext` return a Go pair, each component
of which may be nil; `QueryRowContext` returns a possibly nil `*sql.Row`.

The last three fields describe the dynamic type of the value, which the type
assertions of `BeginTx`, `Commit` and `Rollback` inspect: whether it is a
`*sql.Tx`, and the methods through which it implements `gorm.TxCommitter` and
`gorm.ConnPoolBeginner`, when it does. -/
structure GormConnPool (σ : Type) where
  ExecContext : σ → Context → String → List Value → (Option SqlResult × Option GoError) × σ
  QueryContext : σ → Context → String → List Value → (Option Rows × Option GoError) × σ
  QueryRowContext : σ → Context → String → List Value → Option Row × σ
  isSqlTx : Bool := false
  asTxCommitter : Option (TxCommitter σ) := none
  asConnPoolBeginner : Option (ConnPoolBeginner σ) := none

/-- One call received by the wrapped capability. -/
inductive Call where
  | exec (ctx : Context) (query : String) (args : List Value)
  | query (ctx : Context) (query : String) (args : List Value)
  | queryRow (ctx : Context) (query : String) (args : List Value)
  | beginTx (ctx : Context) (opt : Option TxOptions)
  | commit
  | rollback
  deriving DecidableEq, Repr

/-- Everything a call of the pool can change: the state of the wrapped
capability, the log of the calls it has received (oldest first), and the map
`pool.sharding.querys`. -/
structure World (σ : Type) where
  conn : σ
  calls : List Call
  querys : String → Option String

/-- The statement `pool.sharding.querys.Store(key, value)`. -/
def World.Store {σ : Type} (w : World σ) (key value : String) : World σ :=
  { w with querys := fun k => if k = key then some value else w.querys k }

/-- The struct `ConnPool`: the sharding context and the embedded
`gorm.ConnPool`, here the field `base` (in Go the embedded field bears the
name of the struct, `pool.ConnPool`). -/
structure ConnPool (σ : Type) where
  sharding : Sharding
  base : GormConnPool σ

/-- The call `pool.ConnPool.ExecContext(ctx, q, args...)`, logged. -/
def baseExec {σ : Type} (base : GormConnPool σ) (w : World σ) (ctx : Context) (q : String)
    (args : List Value) : (Option SqlResult × Option GoError) × World σ :=
  let out := base.ExecContext w.conn ctx q args
  (out.1, { w with conn := out.2, calls := w.calls ++ [Call.exec ctx q args] })

/-- The call `pool.ConnPool.QueryContext(ctx, q, args...)`, logged. -/
def baseQuery {σ : Type} (base : GormConnPool σ) (w : World σ) (ctx : Context) (q : String)
    (args : List Value) : (Option Rows × Option GoError) × World σ :=
  let out := base.QueryContext w.conn ctx q args
  (out.1, { w with conn := out.2, calls := w.calls ++ [Call.query ctx q args] })

/-- The call `pool.ConnPool.QueryRowContext(ctx, q, args...)`, logged. -/
def baseQueryRow {σ : Type} (base : GormConnPool σ) (w : World σ) (ctx : Context) (q : String)
    (args : List Value) : Option Row × World σ :=
  let out := base.QueryRowContext w.conn ctx q args
  (out.1, { w with conn := out.2, calls := w.calls ++ [Call.queryRow ctx q args] })

/-! ## `mergeResults` -/

/-- The loop of `mergeResults`, with `totalAffected` as accumulator.  An
element of the slice is an interface value: `none` is the nil interface, on
which the method call `r.RowsAffected()` panics. -/
def mergeLoop : List (Option SqlResult) → Int → Outcome Int
  | [], totalAffected => .returned totalAffected
  | none :: _, _ => .panicked
  | some r :: rest, totalAffected =>
    match r.RowsAffected with
    | (a, none) => mergeLoop rest (int64Add totalAffected a)
    | (_, some _) => mergeLoop rest totalAffected

/-- The function `mergeResults`: `totalAffected` starts at `0`, the loop runs,
and `&mergedResult{rowsAffected: totalAffected}` is returned. -/
def mergeResults (results : List (Option SqlResult)) : Outcome SqlResult :=
  match mergeLoop results 0 with
  | .returned totalAffected => .returned (SqlResult.mergedResult totalAffected)
  | .panicked => .panicked

/-! ## The dispatch entry points -/

/-- The loop of the full-scan branch of `ExecContext` over the segments still
to be executed, with the slice `results` built so far.  An error of a segment
returns `nil, err` at once; after the last segment the results are merged. -/
def execFanOut {σ : Type} (base : GormConnPool σ) (ctx : Context) (args : List Value) :
    List String → List (Option SqlResult) → World σ →
      Outcome (Option SqlResult × Option GoError) × World σ
  | [], results, w =>
    match mergeResults results with
    | .returned merged => (.returned (some merged, none), w)
    | .panicked => (.panicked, w)
  | q :: qs, results, w =>
    let out := baseExec base w ctx q args
    match out.1.2 with
    | some err => (.returned (none, some err), out.2)
    | none => execFanOut base ctx args qs (results ++ [out.1.1]) out.2

/-- The double-write step shared by `ExecContext` and `QueryContext`:
`if table != ""`, `if r, ok := pool.sharding.configs[table]; ok`,
`if r.DoubleWrite`, then `pool.ConnPool.ExecContext(ctx, ftQuery, args...)`
with both returned values dropped. -/
def doubleWriteStep {σ : Type} (pool : ConnPool σ) (w : World σ) (ctx : Context)
    (ftQuery table : String) (args : List Value) : World σ :=
  if table ≠ "" then
    match pool.sharding.configs table with
    | some r => if r.DoubleWrite then (baseExec pool.base w ctx ftQuery args).2 else w
    | none => w
  else w

/-- The method `ConnPool.ExecContext`. -/
def ConnPool.ExecContext {σ : Type} (pool : ConnPool σ) (w : World σ) (ctx : Context)
    (query : String) (args : List Value) :
    Outcome (Option SqlResult × Option GoError) × World σ :=
  let r := pool.sharding.resolve query args
  match r.err with
  | some err => (.returned (none, some err), w)
  | none =>
    let w1 := w.Store "last_query" r.stQuery
    if r.needFullScan then
      execFanOut pool.base ctx args (stringsSplit r.stQuery unionAll) [] w1
    else
      let w2 := doubleWriteStep pool w1 ctx r.ftQuery r.table args
      let out := baseExec pool.base w2 ctx r.stQuery args
      (.returned out.1, out.2)

/-- The method `ConnPool.QueryContext`. -/
def ConnPool.QueryContext {σ : Type} (pool : ConnPool σ) (w : World σ) (ctx : Context)
    (query : String) (args : List Value) : (Option Rows × Option GoError) × World σ :=
  let r := pool.sharding.resolve query args
  match r.err with
  | some err => ((none, some err), w)
  | none =>
    let w1 := w.Store "last_query" r.stQuery
    if r.needFullScan then
      baseQuery pool.base w1 ctx r.stQuery r.newArgs
    else
      let w2 := doubleWriteStep pool w1 ctx r.ftQuery r.table args
      baseQuery pool.base w2 ctx r.stQuery args

/-- The method `ConnPool.QueryRowContext`: the error of `resolve` is assigned
to `_`. -/
def ConnPool.QueryRowContext {σ : Type} (pool : ConnPool σ) (w : World σ) (ctx : Context)
    (query : String) (args : List Value) : Option Row × World σ :=
  let r := pool.sharding.resolve query args
  let w1 := w.Store "last_query" r.stQuery
  if r.needFullScan then
    baseQueryRow pool.base w1 ctx r.stQuery r.newArgs
  else
    baseQueryRow pool.base w1 ctx r.stQuery args

/-! ## The transaction methods -/

/-- A non-nil `gorm.ConnPool` value as `ConnPool.BeginTx` returns it: the
receiver `pool` itself, or the value that the wrapped capability handed
out. -/
inductive ConnPoolValue (σ : Type) where
  | sharding (pool : ConnPool σ)
  | foreign (tx : TxHandle)

/-- The method `ConnPool.BeginTx`: when the wrapped capability is a
`gorm.ConnPoolBeginner`, `return basePool.BeginTx(ctx, opt)`; otherwise
`return pool, nil`. -/
def ConnPool.BeginTx {σ : Type} (pool : ConnPool σ) (w : World σ) (ctx : Context)
    (opt : Option TxOptions) : (Option (ConnPoolValue σ) × Option GoError) × World σ :=
  match pool.base.asConnPoolBeginner with
  | some basePool =>
    let out := basePool.BeginTx w.conn ctx opt
    ((out.1.1.map ConnPoolValue.foreign, out.1.2),
      { w with conn := out.2, calls := w.calls ++ [Call.beginTx ctx opt] })
  | none => ((some (ConnPoolValue.sharding pool), none), w)

/-- The method `ConnPool.Commit`: `nil` when the wrapped capability is a
`*sql.Tx`; otherwise `basePool.Commit()` when it is a `gorm.TxCommitter`;
otherwise `nil`. -/
def ConnPool.Commit {σ : Type} (pool : ConnPool σ) (w : World σ) : Option GoError × World σ :=
  if pool.base.isSqlTx then (none, w)
  else
    match pool.base.asTxCommitter with
    | some basePool =>
      let out := basePool.Commit w.conn
      (out.1, { w with conn := out.2, calls := w.calls ++ [Call.commit] })
    | none => (none, w)

/-- The method `ConnPool.Rollback`: `nil` when the wrapped capability is a
`*sql.Tx`; otherwise `basePool.Rollback()` when it is a `gorm.TxCommitter`;
otherwise `nil`. -/
def ConnPool.Rollback {σ : Type} (pool : ConnPool σ) (w : World σ) : Option GoError × World σ :=
  if pool.base.isSqlTx then (none, w)
  else
    match pool.base.asTxCommitter with
    | some basePool =>
      let out := basePool.Rollback w.conn
      (out.1, { w with conn := out.2, calls := w.calls ++ [Call.rollback] })
    | none => (none, w)

/-! ## Reference notions used to state the properties -/

/-- The Go library function `strings.Join` on the characters of its
arguments: the elements, with the separator between each two neighbours. -/
def joinChars (sep : List Char) : List (List Char) → List Char
  | [] => []
  | [x] => x
  | x :: y :: rest => x ++ sep ++ joinChars sep (y :: rest)

/-- The Go library function `strings.Join(elems, sep)`. -/
def stringsJoin (elems : List String) (sep : String) : String :=
  String.mk (joinChars sep.toList (elems.map String.toList))

/-- The statements of the executions in a list of calls, in order. -/
def execStatements (calls : List Call) : List String :=
  calls.filterMap fun c =>
    match c with
    | .exec _ q _ => some q
    | _ => none

/-- The Go library function `strings.Contains(s, substr)`, as a proposition:
the characters of `substr` occur, contiguously, in `s`. -/
def stringsContains (s substr : String) : Prop := substr.toList <:+: s.toList

/-- The affected-row counts that can be obtained from a list of results: those
of the results whose `RowsAffected` returns a nil error, in order. -/
def rowCounts (rs : List SqlResult) : List Int :=
  rs.filterMap fun r =>
    match r.RowsAffected with
    | (a, none) => some a
    | (_, some _) => none

/-- The sum of a list of `int64` in `int64` arithmetic, from `0`, left to
right. -/
def int64Sum (xs : List Int) : Int := xs.foldl int64Add 0

/-- What the wrapped capability answers when the statements `qs` are executed
on it one after the other, starting in state `s`, each with `args`. -/
def shardRuns {σ : Type} (base : GormConnPool σ) (ctx : Context) (args : List Value) :
    List String → σ → List (Option SqlResult × Option GoError)
  | [], _ => []
  | q :: qs, s =>
    (base.ExecContext s ctx q args).1 :: shardRuns base ctx args qs (base.ExecContext s ctx q args).2

/-- The state of the wrapped capability after the statements `qs` have been
executed on it one after the other, starting in state `s`. -/
def shardFinal {σ : Type} (base : GormConnPool σ) (ctx : Context) (args : List Value) :
    List String → σ → σ
  | [], s => s
  | q :: qs, s => shardFinal base ctx args qs (base.ExecContext s ctx q args).2

/-! ## A concrete pool, for evaluating the definitions -/

/-- A wrapped capability whose state counts the calls it has received.  It
fails the statement `FAIL` and serves every other one; an execution reports
the call number as identifier and the number of arguments plus the length of
the statement as affected rows. -/
def demoBase : GormConnPool Nat where
  ExecContext := fun s _ q args =>
    if q = "FAIL" then ((none, some (GoError.other "exec failed")), s + 1)
    else ((some (SqlResult.driver (s + 1, none) (q.length + args.length, none)), none), s + 1)
  QueryContext := fun s _ q _ =>
    if q = "FAIL" then ((none, some (GoError.other "query failed")), s + 1)
    else ((some ⟨s + 1⟩, none), s + 1)
  QueryRowContext := fun s _ _ _ => (some ⟨s + 1⟩, s + 1)

/-- A resolver with a handful of fixed routing decisions. -/
def demoResolve (query : String) (args : List Value) : Resolved :=
  if query = "dw" then
    ⟨"FAIL", "INSERT INTO orders_1", "orders", args ++ [Value.int 1], false, none⟩
  else if query = "fan" then
    ⟨"", "A UNION ALL BB UNION ALL CCC", "orders", args ++ [Value.int 1], true, none⟩
  else if query = "fanfail" then
    ⟨"", "A UNION ALL FAIL UNION ALL CCC", "orders", args ++ [Value.int 1], true, none⟩
  else if query = "plain" then
    ⟨"", "SELECT 1", "", args ++ [Value.int 1], false, none⟩
  else
    ⟨"", "", "", [], false, some (GoError.other "cannot route")⟩

/-- A sharding context in which only the table `orders` is configured, with
double write. -/
def demoSharding : Sharding where
  resolve := demoResolve
  configs := fun t => if t = "orders" then some ⟨true⟩ else none

/-- The pool over `demoBase` and `demoSharding`. -/
def demoPool : ConnPool Nat := ⟨demoSharding, demoBase⟩

/-- A world in which nothing has happened yet. -/
def demoWorld : World Nat := ⟨0, [], fun _ => none⟩

/-- A context. -/
def demoCtx : Context := ⟨0⟩

/-- A second resolver: two full scans on a table configured for double write,
with a double-write statement of their own, the second one of a statement
without delimiter, and two decisions that come with an error. -/
def demoResolveB (query : String) (args : List Value) : Resolved :=
  if query = "fandw" then
    ⟨"INSERT INTO orders", "A UNION ALL BB", "orders", args ++ [Value.int 1], true, none⟩
  else if query = "fanone" then
    ⟨"INSERT INTO orders", "UPDATE t", "orders", args ++ [Value.int 1], true, none⟩
  else if query = "errfull" then
    ⟨"", "SELECT partial", "orders", args ++ [Value.int 1], true,
      some (GoError.other "cannot route")⟩
  else
    ⟨"", "SELECT raw", "orders", args ++ [Value.int 1], false,
      some (GoError.other "cannot route")⟩

/-- The pool over `demoBase` with the second resolver. -/
def demoPoolB : ConnPool Nat :=
  ⟨⟨demoResolveB, fun t => if t = "orders" then some ⟨true⟩ else none⟩, demoBase⟩

/-- A wrapped capability that is a `*sql.Tx`: it has the methods `Commit` and
`Rollback`, which here fail and count the call. -/
def demoSqlTx : GormConnPool Nat where
  ExecContext := demoBase.ExecContext
  QueryContext := demoBase.QueryContext
  QueryRowContext := demoBase.QueryRowContext
  isSqlTx := true
  asTxCommitter := some
    ⟨fun s => (some (GoError.other "commit failed"), s + 1),
     fun s => (some (GoError.other "rollback failed"), s + 1)⟩

/-- A wrapped capability that is not a `*sql.Tx` and implements both
`gorm.TxCommitter` and `gorm.ConnPoolBeginner`: `Commit` succeeds, `Rollback`
fails, `BeginTx` hands out a handle numbered after the call. -/
def demoTxBase : GormConnPool Nat where
  ExecContext := demoBase.ExecContext
  QueryContext := demoBase.QueryContext
  QueryRowContext := demoBase.QueryRowContext
  asTxCommitter := some
    ⟨fun s => (none, s + 1), fun s => (some (GoError.other "rollback failed"), s + 1)⟩
  asConnPoolBeginner := some ⟨fun s _ _ => ((some ⟨s + 1⟩, none), s + 1)⟩

end GormSharding

namespace GormSharding

/-! ## `int64` arithmetic -/

theorem int64Wrap_add_left (x a : Int) : int64Wrap (int64Wrap x + a) = int64Wrap (x + a) := by
  unfold int64Wrap
  have h : (x + 2 ^ 63) % 2 ^ 64 - 2 ^ 63 + a + 2 ^ 63 = (x + 2 ^ 63) % 2 ^ 64 + a := by ring
  rw [h, Int.emod_add_emod]
  have h2 : x + 2 ^ 63 + a = x + a + 2 ^ 63 := by ring
  rw [h2]

theorem int64Wrap_idem (x : Int) : int64Wrap (int64Wrap x) = int64Wrap x := by
  have := int64Wrap_add_left x 0
  simpa using this

theorem int64Wrap_of_range (x : Int) (hlo : -2 ^ 63 ≤ x) (hhi : x < 2 ^ 63) : int64Wrap x = x := by
  unfold int64Wrap
  rw [Int.emod_eq_of_lt (by omega) (by omega)]
  ring

theorem foldl_int64Add_wrap (xs : List Int) (t : Int) :
    int64Wrap (xs.foldl int64Add t) = int64Wrap (t + xs.sum) := by
  induction xs generalizing t with
  | nil => simp
  | cons x xs ih =>
    simp only [List.foldl_cons, List.sum_cons]
    rw [ih, int64Add, int64Wrap_add_left, add_assoc]

theorem foldl_int64Add_fixed (xs : List Int) (u : Int) :
    int64Wrap (xs.foldl int64Add (int64Wrap u)) = xs.foldl int64Add (int64Wrap u) := by
  induction xs generalizing u with
  | nil => simpa using int64Wrap_idem u
  | cons x xs ih =>
    simp only [List.foldl_cons]
    exact ih (int64Wrap u + x)

theorem int64Sum_eq_wrap_sum (xs : List Int) : int64Sum xs = int64Wrap xs.sum := by
  have h0 : int64Wrap 0 = 0 := by decide
  have h1 := foldl_int64Add_fixed xs 0
  have h2 := foldl_int64Add_wrap xs 0
  rw [h0] at h1
  rw [zero_add] at h2
  unfold int64Sum
  rw [← h1, h2]

/-! ## `mergeResults` -/

theorem mergeLoop_map_some (rs : List SqlResult) (t : Int) :
    mergeLoop (rs.map some) t = .returned ((rowCounts rs).foldl int64Add t) := by
  induction rs generalizing t with
  | nil => rfl
  | cons r rs ih =>
    rcases hr : r.RowsAffected with ⟨a, _ | e⟩
    · simp [mergeLoop, rowCounts, hr, List.filterMap_cons, ih]
    · simp [mergeLoop, rowCounts, hr, List.filterMap_cons, ih]

theorem mergeResults_map_some (rs : List SqlResult) :
    mergeResults (rs.map some) = .returned (SqlResult.mergedResult (int64Sum (rowCounts rs))) := by
  simp [mergeResults, mergeLoop_map_some, int64Sum]

theorem mergeLoop_returned_no_nil (results : List (Option SqlResult)) (t u : Int)
    (h : mergeLoop results t = .returned u) :
    results = (results.filterMap id).map some := by
  induction results generalizing t with
  | nil => rfl
  | cons r rest ih =>
    cases r with
    | none => simp [mergeLoop] at h
    | some r =>
      rcases hr : r.RowsAffected with ⟨a, _ | e⟩
      · simp only [mergeLoop, hr] at h
        simpa using ih _ h
      · simp only [mergeLoop, hr] at h
        simpa using ih _ h

theorem mergeResults_returned (results : List (Option SqlResult)) (m : SqlResult)
    (h : mergeResults results = .returned m) :
    m = SqlResult.mergedResult (int64Sum (rowCounts (results.filterMap id))) := by
  unfold mergeResults at h
  cases hl : mergeLoop results 0 with
  | panicked => simp [hl] at h
  | returned u =>
    have hnil := mergeLoop_returned_no_nil results 0 u hl
    have hm := mergeResults_map_some (results.filterMap id)
    rw [← hnil] at hm
    unfold mergeResults at hm
    rw [hl] at h hm
    simp only [Outcome.returned.injEq] at h hm
    rw [← h, hm]

/-! ## The fan-out loop -/

theorem store_conn {σ : Type} (w : World σ) (k v : String) : (w.Store k v).conn = w.conn := rfl

theorem store_calls {σ : Type} (w : World σ) (k v : String) : (w.Store k v).calls = w.calls := rfl

theorem execFanOut_ok {σ : Type} (base : GormConnPool σ) (ctx : Context) (args : List Value)
    (segs : List String) (acc : List (Option SqlResult)) (w : World σ)
    (hok : ∀ o ∈ shardRuns base ctx args segs w.conn, o.2 = none) :
    (execFanOut base ctx args segs acc w).2.calls
        = w.calls ++ segs.map (fun q => Call.exec ctx q args) ∧
      (execFanOut base ctx args segs acc w).2.conn = shardFinal base ctx args segs w.conn ∧
      (execFanOut base ctx args segs acc w).2.querys = w.querys ∧
      (execFanOut base ctx args segs acc w).1
        = match mergeResults (acc ++ (shardRuns base ctx args segs w.conn).map (fun o => o.1)) with
          | .returned merged => .returned (some merged, none)
          | .panicked => .panicked := by
  induction segs generalizing acc w with
  | nil =>
    simp only [execFanOut, shardRuns, shardFinal, List.map_nil, List.append_nil]
    cases mergeResults acc <;> simp
  | cons q qs ih =>
    have hq : (base.ExecContext w.conn ctx q args).1.2 = none :=
      hok _ (by simp [shardRuns])
    have hrest : ∀ o ∈ shardRuns base ctx args qs (baseExec base w ctx q args).2.conn,
        o.2 = none := by
      intro o ho
      exact hok o (by simp only [shardRuns, List.mem_cons]; exact Or.inr ho)
    have h := ih (acc ++ [(baseExec base w ctx q args).1.1]) (baseExec base w ctx q args).2 hrest
    have hb : (baseExec base w ctx q args).1.2 = none := hq
    simp only [execFanOut, hb]
    refine ⟨?_, ?_, ?_, ?_⟩
    · rw [h.1]; simp [baseExec]
    · rw [h.2.1]; simp [baseExec, shardFinal]
    · rw [h.2.2.1]; simp [baseExec]
    · rw [h.2.2.2]; simp [baseExec, shardRuns]

theorem execFanOut_fail {σ : Type} (base : GormConnPool σ) (ctx : Context) (args : List Value)
    (k : Nat) (segs : List String) (acc : List (Option SqlResult)) (w : World σ) (e : GoError)
    (hok : ∀ i, i < k → ((shardRuns base ctx args segs w.conn)[i]?).map (fun o => o.2) = some none)
    (hfail : ((shardRuns base ctx args segs w.conn)[k]?).map (fun o => o.2) = some (some e)) :
    (execFanOut base ctx args segs acc w).1 = .returned (none, some e) ∧
      (execFanOut base ctx args segs acc w).2.calls
        = w.calls ++ (segs.take (k + 1)).map (fun q => Call.exec ctx q args) ∧
      (execFanOut base ctx args segs acc w).2.conn
        = shardFinal base ctx args (segs.take (k + 1)) w.conn ∧
      (execFanOut base ctx args segs acc w).2.querys = w.querys := by
  induction k generalizing segs acc w with
  | zero =>
    cases segs with
    | nil => simp [shardRuns] at hfail
    | cons q qs =>
      have hq : (baseExec base w ctx q args).1.2 = some e := by
        simpa [shardRuns] using hfail
      simp only [execFanOut, hq]
      simp [baseExec, shardFinal]
  | succ k ih =>
    cases segs with
    | nil => simp [shardRuns] at hfail
    | cons q qs =>
      have hq : (baseExec base w ctx q args).1.2 = none := by
        simpa [shardRuns] using hok 0 (Nat.succ_pos k)
      have hok2 : ∀ i, i < k →
          ((shardRuns base ctx args qs (baseExec base w ctx q args).2.conn)[i]?).map
            (fun o => o.2) = some none := by
        intro i hi
        simpa [shardRuns] using hok (i + 1) (Nat.succ_lt_succ hi)
      have hfail2 : ((shardRuns base ctx args qs (baseExec base w ctx q args).2.conn)[k]?).map
            (fun o => o.2) = some (some e) := by
        simpa [shardRuns] using hfail
      have h := ih qs (acc ++ [(baseExec base w ctx q args).1.1]) (baseExec base w ctx q args).2
        hok2 hfail2
      simp only [execFanOut, hq]
      refine ⟨h.1, ?_, ?_, ?_⟩
      · rw [h.2.1]; simp [baseExec]
      · rw [h.2.2.1]; simp [baseExec, shardFinal]
      · rw [h.2.2.2]; simp [baseExec]

theorem execFanOut_success {σ : Type} (base : GormConnPool σ) (ctx : Context) (args : List Value)
    (segs : List String) (acc : List (Option SqlResult)) (w : World σ) (res : SqlResult)
    (h : (execFanOut base ctx args segs acc w).1 = .returned (some res, none)) :
    (∀ o ∈ shardRuns base ctx args segs w.conn, o.2 = none) ∧
      mergeResults (acc ++ (shardRuns base ctx args segs w.conn).map (fun o => o.1))
        = .returned res := by
  induction segs generalizing acc w with
  | nil =>
    simp only [execFanOut] at h
    cases hm : mergeResults acc with
    | panicked => simp [hm] at h
    | returned m =>
      simp only [hm, Outcome.returned.injEq, Prod.mk.injEq, Option.some.injEq, and_true] at h
      simp [shardRuns, hm, h]
  | cons q qs ih =>
    cases hq : (baseExec base w ctx q args).1.2 with
    | some err => simp [execFanOut, hq] at h
    | none =>
      simp only [execFanOut, hq] at h
      have h2 := ih _ _ h
      have hq2 : (base.ExecContext w.conn ctx q args).1.2 = none := hq
      constructor
      · intro o ho
        simp only [shardRuns, List.mem_cons] at ho
        rcases ho with rfl | ho
        · exact hq2
        · exact h2.1 o ho
      · have := h2.2
        simpa [shardRuns, baseExec] using this

/-! ## Double-write and direct paths of `ExecContext` -/

theorem doubleWriteStep_on {σ : Type} (pool : ConnPool σ) (w : World σ) (ctx : Context)
    (ftQuery table : String) (args : List Value) (cfg : Config)
    (htable : table ≠ "") (hcfg : pool.sharding.configs table = some cfg)
    (hdw : cfg.DoubleWrite = true) :
    doubleWriteStep pool w ctx ftQuery table args = (baseExec pool.base w ctx ftQuery args).2 := by
  simp [doubleWriteStep, htable, hcfg, hdw]

theorem doubleWriteStep_off {σ : Type} (pool : ConnPool σ) (w : World σ) (ctx : Context)
    (ftQuery table : String) (args : List Value)
    (hnd : table = "" ∨ pool.sharding.configs table = none ∨
      ∃ cfg, pool.sharding.configs table = some cfg ∧ cfg.DoubleWrite = false) :
    doubleWriteStep pool w ctx ftQuery table args = w := by
  rcases hnd with h | h | ⟨cfg, h, hd⟩
  · simp [doubleWriteStep, h]
  · simp [doubleWriteStep, h]
  · simp [doubleWriteStep, h, hd]

/-- C1: on the double-write path of `ExecContext` (routing succeeds, no full
scan, `table` non-empty and configured with `DoubleWrite`), the wrapped
capability receives exactly two `ExecContext` calls, first the double-write
statement and then the routed statement, both with the original arguments;
the caller gets the result and error of the second call, so a failure of the
first call does not fail the call. -/
theorem execContext_doubleWrite {σ : Type} (pool : ConnPool σ) (w : World σ) (ctx : Context)
    (query : String) (args : List Value) (ftQuery stQuery table : String)
    (newArgs : List Value) (cfg : Config)
    (hr : pool.sharding.resolve query args = ⟨ftQuery, stQuery, table, newArgs, false, none⟩)
    (htable : table ≠ "") (hcfg : pool.sharding.configs table = some cfg)
    (hdw : cfg.DoubleWrite = true) :
    (pool.ExecContext w ctx query args).2.calls
        = w.calls ++ [Call.exec ctx ftQuery args, Call.exec ctx stQuery args] ∧
      (pool.ExecContext w ctx query args).1
        = .returned (pool.base.ExecContext
            (pool.base.ExecContext w.conn ctx ftQuery args).2 ctx stQuery args).1 ∧
      (pool.ExecContext w ctx query args).2.conn
        = (pool.base.ExecContext
            (pool.base.ExecContext w.conn ctx ftQuery args).2 ctx stQuery args).2 ∧
      (∀ (e : GoError) (res : SqlResult),
        (pool.base.ExecContext w.conn ctx ftQuery args).1.2 = some e →
        (pool.base.ExecContext
            (pool.base.ExecContext w.conn ctx ftQuery args).2 ctx stQuery args).1
          = (some res, none) →
        (pool.ExecContext w ctx query args).1 = .returned (some res, none)) := by
  have hstep := doubleWriteStep_on pool (w.Store "last_query" stQuery) ctx ftQuery table args cfg
    htable hcfg hdw
  have hmain : pool.ExecContext w ctx query args
      = (.returned (baseExec pool.base (baseExec pool.base (w.Store "last_query" stQuery) ctx
            ftQuery args).2 ctx stQuery args).1,
          (baseExec pool.base (baseExec pool.base (w.Store "last_query" stQuery) ctx
            ftQuery args).2 ctx stQuery args).2) := by
    simp only [ConnPool.ExecContext, hr, hstep]
    rfl
  rw [hmain]
  refine ⟨?_, ?_, ?_, ?_⟩
  · simp [baseExec, World.Store]
  · simp [baseExec, World.Store]
  · simp [baseExec, World.Store]
  · intro e res _ h2
    simp only [baseExec, World.Store]
    rw [h2]

/-- Witness of C1: with a double-write statement that fails, the two calls are
made in order and the call returns the primary result. -/
theorem execContext_doubleWrite_witness :
    (demoPool.ExecContext demoWorld demoCtx "dw" [Value.int 5]).2.calls
        = [Call.exec demoCtx "FAIL" [Value.int 5],
           Call.exec demoCtx "INSERT INTO orders_1" [Value.int 5]] ∧
      (demoPool.ExecContext demoWorld demoCtx "dw" [Value.int 5]).1
        = .returned (some (SqlResult.driver (2, none) (21, none)), none) :=
  have h := execContext_doubleWrite demoPool demoWorld demoCtx "dw" [Value.int 5]
    "FAIL" "INSERT INTO orders_1" "orders" [Value.int 5, Value.int 1] ⟨true⟩
    (by decide) (by decide) (by decide) rfl
  ⟨h.1, h.2.2.2 (GoError.other "exec failed") (SqlResult.driver (2, none) (21, none))
    (by decide) (by decide)⟩

/-! ## Full-scan path of `ExecContext` -/

theorem execContext_fullScan_eq {σ : Type} (pool : ConnPool σ) (w : World σ) (ctx : Context)
    (query : String) (args : List Value) (ftQuery stQuery table : String)
    (newArgs : List Value)
    (hr : pool.sharding.resolve query args = ⟨ftQuery, stQuery, table, newArgs, true, none⟩) :
    pool.ExecContext w ctx query args
      = execFanOut pool.base ctx args (stringsSplit stQuery unionAll) []
          (w.Store "last_query" stQuery) := by
  simp only [ConnPool.ExecContext, hr]
  rfl

/-- C2: on the full-scan path of `ExecContext`, when every per-shard execution
succeeds, the wrapped capability receives exactly one `ExecContext` call per
segment of `strings.Split(stQuery, " UNION ALL ")`, in segment order, each
with that segment as statement and the original arguments; the number of
underlying executions is the number of segments. -/
theorem execContext_fullScan_calls {σ : Type} (pool : ConnPool σ) (w : World σ) (ctx : Context)
    (query : String) (args : List Value) (ftQuery stQuery table : String)
    (newArgs : List Value)
    (hr : pool.sharding.resolve query args = ⟨ftQuery, stQuery, table, newArgs, true, none⟩)
    (hok : ∀ o ∈ shardRuns pool.base ctx args (stringsSplit stQuery unionAll) w.conn,
      o.2 = none) :
    (pool.ExecContext w ctx query args).2.calls
        = w.calls ++ (stringsSplit stQuery unionAll).map (fun q => Call.exec ctx q args) ∧
      (pool.ExecContext w ctx query args).2.calls.length
        = w.calls.length + (stringsSplit stQuery unionAll).length := by
  rw [execContext_fullScan_eq pool w ctx query args ftQuery stQuery table newArgs hr]
  have h := (execFanOut_ok pool.base ctx args (stringsSplit stQuery unionAll) []
    (w.Store "last_query" stQuery) hok).1
  rw [h]
  simp [store_calls]

/-- Witness of C2: three segments, three executions, with the original
argument and not the adjusted list. -/
theorem execContext_fullScan_calls_witness :
    (demoPool.ExecContext demoWorld demoCtx "fan" [Value.int 5]).2.calls
        = [Call.exec demoCtx "A" [Value.int 5], Call.exec demoCtx "BB" [Value.int 5],
           Call.exec demoCtx "CCC" [Value.int 5]] ∧
      (demoPool.ExecContext demoWorld demoCtx "fan" [Value.int 5]).2.calls.length = 0 + 3 :=
  execContext_fullScan_calls demoPool demoWorld demoCtx "fan" [Value.int 5]
    "" "A UNION ALL BB UNION ALL CCC" "orders" [Value.int 5, Value.int 1] (by decide) (by decide)

/-- C3: on the full-scan path of `ExecContext` with `n` segments, when
segments `1..k-1` execute successfully and segment `k` fails with `e`
(`1 ≤ k ≤ n`), the wrapped capability receives exactly the `k` executions of
segments `1..k`, in order, and none of the later segments; the call returns a
nil result together with `e`. -/
theorem execContext_fullScan_first_failure {σ : Type} (pool : ConnPool σ) (w : World σ)
    (ctx : Context) (query : String) (args : List Value) (ftQuery stQuery table : String)
    (newArgs : List Value) (k : Nat) (e : GoError)
    (hr : pool.sharding.resolve query args = ⟨ftQuery, stQuery, table, newArgs, true, none⟩)
    (hk : 1 ≤ k) (hkn : k ≤ (stringsSplit stQuery unionAll).length)
    (hok : ∀ i, i < k - 1 →
      ((shardRuns pool.base ctx args (stringsSplit stQuery unionAll) w.conn)[i]?).map
        (fun o => o.2) = some none)
    (hfail :
      ((shardRuns pool.base ctx args (stringsSplit stQuery unionAll) w.conn)[k - 1]?).map
        (fun o => o.2) = some (some e)) :
    (pool.ExecContext w ctx query args).1 = .returned (none, some e) ∧
      (pool.ExecContext w ctx query args).2.calls
        = w.calls ++ ((stringsSplit stQuery unionAll).take k).map
            (fun q => Call.exec ctx q args) ∧
      (pool.ExecContext w ctx query args).2.calls.length = w.calls.length + k := by
  rw [execContext_fullScan_eq pool w ctx query args ftQuery stQuery table newArgs hr]
  have h := execFanOut_fail pool.base ctx args (k - 1) (stringsSplit stQuery unionAll) []
    (w.Store "last_query" stQuery) e hok hfail
  have hk1 : k - 1 + 1 = k := Nat.sub_add_cancel hk
  rw [hk1] at h
  refine ⟨h.1, ?_, ?_⟩
  · rw [h.2.1, store_calls]
  · rw [h.2.1, store_calls]
    simp [List.length_take, Nat.min_eq_left hkn]

/-- Witness of C3: shard 2 of 3 fails; shards 1 and 2 are executed, shard 3 is
not, and the error of shard 2 is returned. -/
theorem execContext_fullScan_first_failure_witness :
    (demoPool.ExecContext demoWorld demoCtx "fanfail" [Value.int 5]).1
        = .returned (none, some (GoError.other "exec failed")) ∧
      (demoPool.ExecContext demoWorld demoCtx "fanfail" [Value.int 5]).2.calls
        = [] ++ (["A", "FAIL", "CCC"].take 2).map (fun q => Call.exec demoCtx q [Value.int 5]) ∧
      (demoPool.ExecContext demoWorld demoCtx "fanfail" [Value.int 5]).2.calls.length = 0 + 2 :=
  execContext_fullScan_first_failure demoPool demoWorld demoCtx "fanfail" [Value.int 5]
    "" "A UNION ALL FAIL UNION ALL CCC" "orders" [Value.int 5, Value.int 1] 2
    (GoError.other "exec failed") (by decide) (by decide) (by decide) (by decide) (by decide)

/-! ## The merged outcome -/

theorem rowCounts_all_obtainable (rs : List SqlResult)
    (h : ∀ r ∈ rs, r.RowsAffected.2 = none) :
    rowCounts rs = rs.map (fun r => r.RowsAffected.1) := by
  induction rs with
  | nil => rfl
  | cons r rs ih =>
    have hr : r.RowsAffected.2 = none := h r (List.mem_cons_self r rs)
    have hrs : ∀ x ∈ rs, x.RowsAffected.2 = none := fun x hx => h x (List.mem_cons_of_mem r hx)
    have ih2 := ih hrs
    unfold rowCounts at ih2 ⊢
    rcases hra : r.RowsAffected with ⟨a, _ | e⟩
    · simp [List.filterMap_cons, hra, ih2]
    · rw [hra] at hr
      simp at hr

/-- C4: for every list of per-shard results, `mergeResults` returns an outcome
whose `RowsAffected` returns a nil error and the `int64` sum of the
affected-row counts of exactly the results whose `RowsAffected` returns no
error (that is, the sum of those counts reduced to the `int64` range); when
every count is obtainable this is the sum of all per-shard counts; and a
full-scan `ExecContext` that succeeds returns the sum of the counts of the
results that the per-shard executions returned. -/
theorem mergeResults_rowsAffected_sum (rs : List SqlResult) :
    (∃ m, mergeResults (rs.map some) = .returned m ∧
        m.RowsAffected = (int64Sum (rowCounts rs), none)) ∧
      int64Sum (rowCounts rs) = int64Wrap (rowCounts rs).sum ∧
      ((∀ r ∈ rs, r.RowsAffected.2 = none) →
        ∃ m, mergeResults (rs.map some) = .returned m ∧
          m.RowsAffected = (int64Sum (rs.map (fun r => r.RowsAffected.1)), none)) ∧
      (∀ (σ : Type) (pool : ConnPool σ) (w : World σ) (ctx : Context) (query : String)
        (args : List Value) (ftQuery stQuery table : String) (newArgs : List Value)
        (res : SqlResult),
        pool.sharding.resolve query args = ⟨ftQuery, stQuery, table, newArgs, true, none⟩ →
        (pool.ExecContext w ctx query args).1 = .returned (some res, none) →
        res.RowsAffected
          = (int64Sum (rowCounts
              ((shardRuns pool.base ctx args (stringsSplit stQuery unionAll) w.conn).filterMap
                (fun o => o.1))), none)) := by
  refine ⟨⟨_, mergeResults_map_some rs, rfl⟩, int64Sum_eq_wrap_sum _, ?_, ?_⟩
  · intro h
    refine ⟨_, mergeResults_map_some rs, ?_⟩
    rw [rowCounts_all_obtainable rs h]
    rfl
  · intro σ pool w ctx query args ftQuery stQuery table newArgs res hr hres
    rw [execContext_fullScan_eq pool w ctx query args ftQuery stQuery table newArgs hr] at hres
    have h := (execFanOut_success pool.base ctx args (stringsSplit stQuery unionAll) []
      (w.Store "last_query" stQuery) res hres).2
    have hm := mergeResults_returned _ _ h
    rw [hm]
    simp [SqlResult.RowsAffected, store_conn, List.filterMap_map, Function.comp_def]

/-- Witness of C4: two results with obtainable counts `2` and `3` merge to
`5`; the full-scan call of the concrete pool succeeds and its count is the sum
`2 + 3 + 4` of the three per-shard counts. -/
theorem mergeResults_rowsAffected_sum_witness :
    (∃ m, mergeResults ([SqlResult.driver (1, none) (2, none),
            SqlResult.driver (0, some GoError.ErrNoRows) (3, none)].map some) = .returned m ∧
        m.RowsAffected = (int64Sum ([SqlResult.driver (1, none) (2, none),
            SqlResult.driver (0, some GoError.ErrNoRows) (3, none)].map
              (fun r => r.RowsAffected.1)), none)) ∧
      (demoPool.ExecContext demoWorld demoCtx "fan" [Value.int 5]).1
        = .returned (some (SqlResult.mergedResult 9), none) ∧
      (SqlResult.mergedResult 9).RowsAffected
        = (int64Sum (rowCounts
            ((shardRuns demoPool.base demoCtx [Value.int 5]
                (stringsSplit "A UNION ALL BB UNION ALL CCC" unionAll) demoWorld.conn).filterMap
              (fun o => o.1))), none) :=
  ⟨(mergeResults_rowsAffected_sum [SqlResult.driver (1, none) (2, none),
      SqlResult.driver (0, some GoError.ErrNoRows) (3, none)]).2.2.1 (by decide),
    by decide,
    (mergeResults_rowsAffected_sum []).2.2.2 Nat demoPool demoWorld demoCtx "fan" [Value.int 5]
      "" "A UNION ALL BB UNION ALL CCC" "orders" [Value.int 5, Value.int 1]
      (SqlResult.mergedResult 9) (by decide) (by decide)⟩

/-- C5: for every list of per-shard results, the empty list and lists whose
results all expose an identifier included, `LastInsertId` on the outcome
returned by `mergeResults` returns a non-nil error. -/
theorem mergeResults_lastInsertId_fails (rs : List SqlResult) :
    ∃ m, mergeResults (rs.map some) = .returned m ∧ m.LastInsertId.2 ≠ none := by
  refine ⟨_, mergeResults_map_some rs, ?_⟩
  simp [SqlResult.LastInsertId]

/-- Counterexample to C6 as stated: on the outcome merged from one result
that exposes an identifier, the error of `LastInsertId` is not distinct from
`sql.ErrNoRows`. -/
theorem mergedResult_lastInsertId_not_dedicated :
    ¬ (∀ m, mergeResults [some (SqlResult.driver (7, none) (1, none))] = .returned m →
        m.LastInsertId.2 ≠ some GoError.ErrNoRows) := by
  intro h
  exact h (SqlResult.mergedResult 1) (by decide) (by decide)

/-- C6, amended: for every list of per-shard results, `LastInsertId` on the
outcome returned by `mergeResults` returns the identifier `0` together with
`sql.ErrNoRows` itself, the "no rows" sentinel of `database/sql`. -/
theorem mergedResult_lastInsertId_errNoRows (rs : List SqlResult) :
    ∃ m, mergeResults (rs.map some) = .returned m ∧
      m.LastInsertId = (0, some GoError.ErrNoRows) :=
  ⟨_, mergeResults_map_some rs, rfl⟩

/-! ## Direct path, resolver errors and `QueryContext` -/

/-- C7: when routing succeeds without full scan and the double-write condition
does not hold (`table` empty, or no entry for it in `configs`, or an entry with
`DoubleWrite` false), each of `ExecContext`, `QueryContext` and
`QueryRowContext` makes exactly one underlying call, of its own kind, with the
routed statement and the original arguments, and returns what that call
returned. -/
theorem direct_path_single_call {σ : Type} (pool : ConnPool σ) (w : World σ) (ctx : Context)
    (query : String) (args : List Value) (ftQuery stQuery table : String)
    (newArgs : List Value)
    (hr : pool.sharding.resolve query args = ⟨ftQuery, stQuery, table, newArgs, false, none⟩)
    (hnd : table = "" ∨ pool.sharding.configs table = none ∨
      ∃ cfg, pool.sharding.configs table = some cfg ∧ cfg.DoubleWrite = false) :
    ((pool.ExecContext w ctx query args).2.calls = w.calls ++ [Call.exec ctx stQuery args] ∧
        (pool.ExecContext w ctx query args).1
          = .returned (pool.base.ExecContext w.conn ctx stQuery args).1 ∧
        (pool.ExecContext w ctx query args).2.conn
          = (pool.base.ExecContext w.conn ctx stQuery args).2) ∧
      ((pool.QueryContext w ctx query args).2.calls = w.calls ++ [Call.query ctx stQuery args] ∧
        (pool.QueryContext w ctx query args).1
          = (pool.base.QueryContext w.conn ctx stQuery args).1 ∧
        (pool.QueryContext w ctx query args).2.conn
          = (pool.base.QueryContext w.conn ctx stQuery args).2) ∧
      ((pool.QueryRowContext w ctx query args).2.calls
          = w.calls ++ [Call.queryRow ctx stQuery args] ∧
        (pool.QueryRowContext w ctx query args).1
          = (pool.base.QueryRowContext w.conn ctx stQuery args).1 ∧
        (pool.QueryRowContext w ctx query args).2.conn
          = (pool.base.QueryRowContext w.conn ctx stQuery args).2) := by
  have hstep := doubleWriteStep_off pool (w.Store "last_query" stQuery) ctx ftQuery table args hnd
  have hexec : pool.ExecContext w ctx query args
      = (.returned (baseExec pool.base (w.Store "last_query" stQuery) ctx stQuery args).1,
          (baseExec pool.base (w.Store "last_query" stQuery) ctx stQuery args).2) := by
    simp only [ConnPool.ExecContext, hr, hstep]
    rfl
  have hquery : pool.QueryContext w ctx query args
      = baseQuery pool.base (w.Store "last_query" stQuery) ctx stQuery args := by
    simp only [ConnPool.QueryContext, hr, hstep]
    rfl
  have hrow : pool.QueryRowContext w ctx query args
      = baseQueryRow pool.base (w.Store "last_query" stQuery) ctx stQuery args := by
    simp only [ConnPool.QueryRowContext, hr]
    rfl
  rw [hexec, hquery, hrow]
  simp [baseExec, baseQuery, baseQueryRow, World.Store]

/-- Witness of C7: a statement routed to no table. -/
theorem direct_path_single_call_witness :
    ((demoPool.ExecContext demoWorld demoCtx "plain" [Value.int 5]).2.calls
          = [] ++ [Call.exec demoCtx "SELECT 1" [Value.int 5]] ∧
        (demoPool.ExecContext demoWorld demoCtx "plain" [Value.int 5]).1
          = .returned (demoBase.ExecContext 0 demoCtx "SELECT 1" [Value.int 5]).1 ∧
        (demoPool.ExecContext demoWorld demoCtx "plain" [Value.int 5]).2.conn
          = (demoBase.ExecContext 0 demoCtx "SELECT 1" [Value.int 5]).2) ∧
      ((demoPool.QueryContext demoWorld demoCtx "plain" [Value.int 5]).2.calls
          = [] ++ [Call.query demoCtx "SELECT 1" [Value.int 5]] ∧
        (demoPool.QueryContext demoWorld demoCtx "plain" [Value.int 5]).1
          = (demoBase.QueryContext 0 demoCtx "SELECT 1" [Value.int 5]).1 ∧
        (demoPool.QueryContext demoWorld demoCtx "plain" [Value.int 5]).2.conn
          = (demoBase.QueryContext 0 demoCtx "SELECT 1" [Value.int 5]).2) ∧
      ((demoPool.QueryRowContext demoWorld demoCtx "plain" [Value.int 5]).2.calls
          = [] ++ [Call.queryRow demoCtx "SELECT 1" [Value.int 5]] ∧
        (demoPool.QueryRowContext demoWorld demoCtx "plain" [Value.int 5]).1
          = (demoBase.QueryRowContext 0 demoCtx "SELECT 1" [Value.int 5]).1 ∧
        (demoPool.QueryRowContext demoWorld demoCtx "plain" [Value.int 5]).2.conn
          = (demoBase.QueryRowContext 0 demoCtx "SELECT 1" [Value.int 5]).2) :=
  direct_path_single_call demoPool demoWorld demoCtx "plain" [Value.int 5]
    "" "SELECT 1" "" [Value.int 5, Value.int 1] (by decide) (Or.inl rfl)

/-- C8: when the resolver returns an error, `ExecContext` and `QueryContext`
return a nil result together with that error and leave the world as it was:
the wrapped capability receives no call. -/
theorem resolver_error_propagates {σ : Type} (pool : ConnPool σ) (w : World σ) (ctx : Context)
    (query : String) (args : List Value) (e : GoError)
    (herr : (pool.sharding.resolve query args).err = some e) :
    (pool.ExecContext w ctx query args = (.returned (none, some e), w) ∧
        (pool.ExecContext w ctx query args).2.calls = w.calls) ∧
      (pool.QueryContext w ctx query args = ((none, some e), w) ∧
        (pool.QueryContext w ctx query args).2.calls = w.calls) := by
  have hexec : pool.ExecContext w ctx query args = (.returned (none, some e), w) := by
    simp only [ConnPool.ExecContext, herr]
  have hquery : pool.QueryContext w ctx query args = ((none, some e), w) := by
    simp only [ConnPool.QueryContext, herr]
  rw [hexec, hquery]
  simp

/-- Witness of C8: a statement that the concrete resolver cannot route. -/
theorem resolver_error_propagates_witness :
    (demoPool.ExecContext demoWorld demoCtx "???" []
          = (.returned (none, some (GoError.other "cannot route")), demoWorld) ∧
        (demoPool.ExecContext demoWorld demoCtx "???" []).2.calls = demoWorld.calls) ∧
      (demoPool.QueryContext demoWorld demoCtx "???" []
          = ((none, some (GoError.other "cannot route")), demoWorld) ∧
        (demoPool.QueryContext demoWorld demoCtx "???" []).2.calls = demoWorld.calls) :=
  resolver_error_propagates demoPool demoWorld demoCtx "???" [] (GoError.other "cannot route")
    (by decide)

/-- C9: on the full-scan path of `QueryContext` the wrapped capability receives
exactly one call, `QueryContext` with the whole routed statement and the
argument list `newArgs` adjusted by the resolver; no double-write statement is
sent, whatever `configs` holds for the table; the rows and error returned are
those of that call. -/
theorem queryContext_fullScan {σ : Type} (pool : ConnPool σ) (w : World σ) (ctx : Context)
    (query : String) (args : List Value) (ftQuery stQuery table : String)
    (newArgs : List Value)
    (hr : pool.sharding.resolve query args = ⟨ftQuery, stQuery, table, newArgs, true, none⟩) :
    (pool.QueryContext w ctx query args).2.calls
        = w.calls ++ [Call.query ctx stQuery newArgs] ∧
      (pool.QueryContext w ctx query args).1
        = (pool.base.QueryContext w.conn ctx stQuery newArgs).1 ∧
      (pool.QueryContext w ctx query args).2.conn
        = (pool.base.QueryContext w.conn ctx stQuery newArgs).2 := by
  have hquery : pool.QueryContext w ctx query args
      = baseQuery pool.base (w.Store "last_query" stQuery) ctx stQuery newArgs := by
    simp only [ConnPool.QueryContext, hr]
    rfl
  rw [hquery]
  simp [baseQuery, World.Store]

/-- Witness of C9: the table `orders` is configured for double write, and the
only call is the query of the unsplit statement with the adjusted
arguments. -/
theorem queryContext_fullScan_witness :
    (demoPool.QueryContext demoWorld demoCtx "fan" [Value.int 5]).2.calls
        = [] ++ [Call.query demoCtx "A UNION ALL BB UNION ALL CCC" [Value.int 5, Value.int 1]] ∧
      (demoPool.QueryContext demoWorld demoCtx "fan" [Value.int 5]).1
        = (demoBase.QueryContext 0 demoCtx "A UNION ALL BB UNION ALL CCC"
            [Value.int 5, Value.int 1]).1 ∧
      (demoPool.QueryContext demoWorld demoCtx "fan" [Value.int 5]).2.conn
        = (demoBase.QueryContext 0 demoCtx "A UNION ALL BB UNION ALL CCC"
            [Value.int 5, Value.int 1]).2 :=
  queryContext_fullScan demoPool demoWorld demoCtx "fan" [Value.int 5]
    "" "A UNION ALL BB UNION ALL CCC" "orders" [Value.int 5, Value.int 1] (by decide)

/-- C10: on the double-write path of `QueryContext` (routing succeeds, no full
scan, `table` non-empty and configured with `DoubleWrite`), the wrapped
capability receives exactly two calls in this order: `ExecContext` of the
double-write statement with the original arguments, whose result and error
are dropped, then `QueryContext` of the routed statement with the original
arguments; the rows and error returned are those of the second call. -/
theorem queryContext_doubleWrite {σ : Type} (pool : ConnPool σ) (w : World σ) (ctx : Context)
    (query : String) (args : List Value) (ftQuery stQuery table : String)
    (newArgs : List Value) (cfg : Config)
    (hr : pool.sharding.resolve query args = ⟨ftQuery, stQuery, table, newArgs, false, none⟩)
    (htable : table ≠ "") (hcfg : pool.sharding.configs table = some cfg)
    (hdw : cfg.DoubleWrite = true) :
    (pool.QueryContext w ctx query args).2.calls
        = w.calls ++ [Call.exec ctx ftQuery args, Call.query ctx stQuery args] ∧
      (pool.QueryContext w ctx query args).1
        = (pool.base.QueryContext
            (pool.base.ExecContext w.conn ctx ftQuery args).2 ctx stQuery args).1 ∧
      (pool.QueryContext w ctx query args).2.conn
        = (pool.base.QueryContext
            (pool.base.ExecContext w.conn ctx ftQuery args).2 ctx stQuery args).2 := by
  have hstep := doubleWriteStep_on pool (w.Store "last_query" stQuery) ctx ftQuery table args cfg
    htable hcfg hdw
  have hquery : pool.QueryContext w ctx query args
      = baseQuery pool.base (baseExec pool.base (w.Store "last_query" stQuery) ctx
          ftQuery args).2 ctx stQuery args := by
    simp only [ConnPool.QueryContext, hr, hstep]
    rfl
  rw [hquery]
  simp [baseQuery, baseExec, World.Store]

/-- Witness of C10: the double-write execution fails, and the query still
returns the rows of the second call. -/
theorem queryContext_doubleWrite_witness :
    (demoPool.QueryContext demoWorld demoCtx "dw" [Value.int 5]).2.calls
        = [] ++ [Call.exec demoCtx "FAIL" [Value.int 5],
           Call.query demoCtx "INSERT INTO orders_1" [Value.int 5]] ∧
      (demoPool.QueryContext demoWorld demoCtx "dw" [Value.int 5]).1
        = (demoBase.QueryContext (demoBase.ExecContext 0 demoCtx "FAIL" [Value.int 5]).2
            demoCtx "INSERT INTO orders_1" [Value.int 5]).1 ∧
      (demoPool.QueryContext demoWorld demoCtx "dw" [Value.int 5]).2.conn
        = (demoBase.QueryContext (demoBase.ExecContext 0 demoCtx "FAIL" [Value.int 5]).2
            demoCtx "INSERT INTO orders_1" [Value.int 5]).2 :=
  queryContext_doubleWrite demoPool demoWorld demoCtx "dw" [Value.int 5]
    "FAIL" "INSERT INTO orders_1" "orders" [Value.int 5, Value.int 1] ⟨true⟩
    (by decide) (by decide) (by decide) rfl

/-! ## `QueryRowContext` -/

theorem queryRowContext_eq {σ : Type} (pool : ConnPool σ) (w : World σ) (ctx : Context)
    (query : String) (args : List Value) :
    pool.QueryRowContext w ctx query args
      = baseQueryRow pool.base
          (w.Store "last_query" (pool.sharding.resolve query args).stQuery) ctx
          (pool.sharding.resolve query args).stQuery
          (if (pool.sharding.resolve query args).needFullScan
            then (pool.sharding.resolve query args).newArgs else args) := by
  unfold ConnPool.QueryRowContext
  cases h : (pool.sharding.resolve query args).needFullScan <;> simp [h]

/-- C11: every `QueryRowContext` call makes exactly one underlying call, a
`QueryRowContext` with the routed statement, with the arguments `newArgs`
adjusted by the resolver when `needFullScan` is true and with the original
arguments when it is false; no double-write statement is sent, whatever
`configs` holds; the row accessor returned is the one of that call. -/
theorem queryRowContext_single_call {σ : Type} (pool : ConnPool σ) (w : World σ)
    (ctx : Context) (query : String) (args : List Value) :
    (pool.QueryRowContext w ctx query args).2.calls
        = w.calls ++ [Call.queryRow ctx (pool.sharding.resolve query args).stQuery
            (if (pool.sharding.resolve query args).needFullScan
              then (pool.sharding.resolve query args).newArgs else args)] ∧
      (pool.QueryRowContext w ctx query args).1
        = (pool.base.QueryRowContext w.conn ctx (pool.sharding.resolve query args).stQuery
            (if (pool.sharding.resolve query args).needFullScan
              then (pool.sharding.resolve query args).newArgs else args)).1 ∧
      (pool.QueryRowContext w ctx query args).2.conn
        = (pool.base.QueryRowContext w.conn ctx (pool.sharding.resolve query args).stQuery
            (if (pool.sharding.resolve query args).needFullScan
              then (pool.sharding.resolve query args).newArgs else args)).2 := by
  rw [queryRowContext_eq]
  simp [baseQueryRow, World.Store]

/-- C16: when the resolver returns an error, `QueryRowContext` does not
surface it: the statement returned with the error is stored under
`last_query`, and exactly one underlying `QueryRowContext` is issued with that
statement (with `newArgs` if the returned `needFullScan` is true, otherwise
with the original arguments), whose row accessor is returned. -/
theorem queryRowContext_swallows_resolver_error {σ : Type} (pool : ConnPool σ) (w : World σ)
    (ctx : Context) (query : String) (args : List Value) (e : GoError)
    (_herr : (pool.sharding.resolve query args).err = some e) :
    (pool.QueryRowContext w ctx query args).2.querys "last_query"
        = some (pool.sharding.resolve query args).stQuery ∧
      (pool.QueryRowContext w ctx query args).2.calls
        = w.calls ++ [Call.queryRow ctx (pool.sharding.resolve query args).stQuery
            (if (pool.sharding.resolve query args).needFullScan
              then (pool.sharding.resolve query args).newArgs else args)] ∧
      (pool.QueryRowContext w ctx query args).1
        = (pool.base.QueryRowContext w.conn ctx (pool.sharding.resolve query args).stQuery
            (if (pool.sharding.resolve query args).needFullScan
              then (pool.sharding.resolve query args).newArgs else args)).1 := by
  rw [queryRowContext_eq]
  simp [baseQueryRow, World.Store]

/-- Witness of C16: two decisions that come with an error, one with
`needFullScan` true and one with it false. -/
theorem queryRowContext_swallows_resolver_error_witness :
    ((demoPoolB.QueryRowContext demoWorld demoCtx "errfull" [Value.int 5]).2.querys "last_query"
          = some "SELECT partial" ∧
        (demoPoolB.QueryRowContext demoWorld demoCtx "errfull" [Value.int 5]).2.calls
          = [] ++ [Call.queryRow demoCtx "SELECT partial" [Value.int 5, Value.int 1]] ∧
        (demoPoolB.QueryRowContext demoWorld demoCtx "errfull" [Value.int 5]).1
          = (demoBase.QueryRowContext 0 demoCtx "SELECT partial"
              [Value.int 5, Value.int 1]).1) ∧
      ((demoPoolB.QueryRowContext demoWorld demoCtx "???" [Value.int 5]).2.querys "last_query"
          = some "SELECT raw" ∧
        (demoPoolB.QueryRowContext demoWorld demoCtx "???" [Value.int 5]).2.calls
          = [] ++ [Call.queryRow demoCtx "SELECT raw" [Value.int 5]] ∧
        (demoPoolB.QueryRowContext demoWorld demoCtx "???" [Value.int 5]).1
          = (demoBase.QueryRowContext 0 demoCtx "SELECT raw" [Value.int 5]).1) :=
  ⟨queryRowContext_swallows_resolver_error demoPoolB demoWorld demoCtx "errfull" [Value.int 5]
      (GoError.other "cannot route") (by decide),
    queryRowContext_swallows_resolver_error demoPoolB demoWorld demoCtx "???" [Value.int 5]
      (GoError.other "cannot route") (by decide)⟩

/-! ## The diagnostics slot and the precedence of the fan-out -/

theorem execFanOut_querys {σ : Type} (base : GormConnPool σ) (ctx : Context) (args : List Value)
    (segs : List String) (acc : List (Option SqlResult)) (w : World σ) :
    (execFanOut base ctx args segs acc w).2.querys = w.querys := by
  induction segs generalizing acc w with
  | nil =>
    simp only [execFanOut]
    cases mergeResults acc <;> rfl
  | cons q qs ih =>
    cases hq : (baseExec base w ctx q args).1.2 with
    | some err => simp only [execFanOut, hq]; rfl
    | none =>
      simp only [execFanOut, hq]
      rw [ih]
      rfl

theorem execFanOut_calls_taken {σ : Type} (base : GormConnPool σ) (ctx : Context)
    (args : List Value) (segs : List String) (acc : List (Option SqlResult)) (w : World σ) :
    ∃ k, k ≤ segs.length ∧ (segs ≠ [] → 1 ≤ k) ∧
      (execFanOut base ctx args segs acc w).2.calls
        = w.calls ++ (segs.take k).map (fun q => Call.exec ctx q args) := by
  induction segs generalizing acc w with
  | nil =>
    refine ⟨0, Nat.le_refl _, fun h => absurd rfl h, ?_⟩
    simp only [execFanOut]
    cases mergeResults acc <;> simp
  | cons q qs ih =>
    cases hq : (baseExec base w ctx q args).1.2 with
    | some err =>
      refine ⟨1, by simp, fun _ => Nat.le_refl _, ?_⟩
      simp only [execFanOut, hq]
      simp [baseExec]
    | none =>
      obtain ⟨k, hk, _, hcalls⟩ :=
        ih (acc ++ [(baseExec base w ctx q args).1.1]) (baseExec base w ctx q args).2
      refine ⟨k + 1, by simpa using hk, fun _ => Nat.succ_le_succ (Nat.zero_le k), ?_⟩
      simp only [execFanOut, hq]
      rw [hcalls]
      simp [baseExec]

theorem doubleWriteStep_querys {σ : Type} (pool : ConnPool σ) (w : World σ) (ctx : Context)
    (ftQuery table : String) (args : List Value) :
    (doubleWriteStep pool w ctx ftQuery table args).querys = w.querys := by
  unfold doubleWriteStep
  split
  · split
    · split <;> rfl
    · rfl
  · rfl

theorem execContext_querys_of_routed {σ : Type} (pool : ConnPool σ) (w : World σ)
    (ctx : Context) (query : String) (args : List Value)
    (herr : (pool.sharding.resolve query args).err = none) :
    (pool.ExecContext w ctx query args).2.querys
      = (w.Store "last_query" (pool.sharding.resolve query args).stQuery).querys := by
  simp only [ConnPool.ExecContext, herr]
  cases hfs : (pool.sharding.resolve query args).needFullScan with
  | true => simp only [if_true]; rw [execFanOut_querys]
  | false =>
    simp only [Bool.false_eq_true, if_false]
    show (baseExec pool.base _ ctx _ args).2.querys = _
    simp only [baseExec]
    rw [doubleWriteStep_querys]

theorem queryContext_querys_of_routed {σ : Type} (pool : ConnPool σ) (w : World σ)
    (ctx : Context) (query : String) (args : List Value)
    (herr : (pool.sharding.resolve query args).err = none) :
    (pool.QueryContext w ctx query args).2.querys
      = (w.Store "last_query" (pool.sharding.resolve query args).stQuery).querys := by
  simp only [ConnPool.QueryContext, herr]
  cases hfs : (pool.sharding.resolve query args).needFullScan with
  | true => simp only [if_true]; rfl
  | false =>
    simp only [Bool.false_eq_true, if_false]
    show (baseQuery pool.base _ ctx _ args).2.querys = _
    simp only [baseQuery]
    rw [doubleWriteStep_querys]

/-- Counterexample to C12 as stated: the resolver returns the statement
`SELECT raw` together with an error, and after the `ExecContext` call, and
after the `QueryContext` call, the slot `last_query` does not hold it. -/
theorem last_query_not_stored_on_resolver_error :
    (demoPoolB.sharding.resolve "???" []).stQuery = "SELECT raw" ∧
      (demoPoolB.ExecContext demoWorld demoCtx "???" []).2.querys "last_query"
        ≠ some (demoPoolB.sharding.resolve "???" []).stQuery ∧
      (demoPoolB.QueryContext demoWorld demoCtx "???" []).2.querys "last_query"
        ≠ some (demoPoolB.sharding.resolve "???" []).stQuery := by
  decide

/-- C12, amended: after every `QueryRowContext` call, and after every
`ExecContext` or `QueryContext` call for which the resolver returns no error,
the slot `last_query` holds exactly the routed statement that the resolver
returned for the call (the whole combined statement on the full-scan path),
whichever strategy is taken and whatever the underlying executions return;
when the resolver returns an error, `ExecContext` and `QueryContext` leave the
map `querys` as it was. -/
theorem last_query_after_call {σ : Type} (pool : ConnPool σ) (w : World σ) (ctx : Context)
    (query : String) (args : List Value) :
    ((pool.sharding.resolve query args).err = none →
        (pool.ExecContext w ctx query args).2.querys "last_query"
            = some (pool.sharding.resolve query args).stQuery ∧
          (pool.QueryContext w ctx query args).2.querys "last_query"
            = some (pool.sharding.resolve query args).stQuery) ∧
      (pool.QueryRowContext w ctx query args).2.querys "last_query"
        = some (pool.sharding.resolve query args).stQuery ∧
      (∀ e, (pool.sharding.resolve query args).err = some e →
        (pool.ExecContext w ctx query args).2.querys = w.querys ∧
          (pool.QueryContext w ctx query args).2.querys = w.querys) := by
  refine ⟨fun herr => ⟨?_, ?_⟩, ?_, fun e herr => ⟨?_, ?_⟩⟩
  · rw [execContext_querys_of_routed pool w ctx query args herr]
    simp [World.Store]
  · rw [queryContext_querys_of_routed pool w ctx query args herr]
    simp [World.Store]
  · rw [queryRowContext_eq]
    simp [baseQueryRow, World.Store]
  · simp only [ConnPool.ExecContext, herr]
  · simp only [ConnPool.QueryContext, herr]

/-- Witness of C12, amended: a fan-out whose second shard fails still leaves
the whole combined statement in the slot, and a resolver error leaves the map
as it was. -/
theorem last_query_after_call_witness :
    ((demoPool.ExecContext demoWorld demoCtx "fanfail" []).2.querys "last_query"
          = some "A UNION ALL FAIL UNION ALL CCC" ∧
        (demoPool.QueryContext demoWorld demoCtx "fanfail" []).2.querys "last_query"
          = some "A UNION ALL FAIL UNION ALL CCC") ∧
      ((demoPoolB.ExecContext demoWorld demoCtx "???" []).2.querys = demoWorld.querys ∧
        (demoPoolB.QueryContext demoWorld demoCtx "???" []).2.querys = demoWorld.querys) :=
  ⟨(last_query_after_call demoPool demoWorld demoCtx "fanfail" []).1 (by decide),
    (last_query_after_call demoPoolB demoWorld demoCtx "???" []).2.2
      (GoError.other "cannot route") (by decide)⟩

/-- C13: on the full-scan path of `ExecContext` the calls received by the
wrapped capability are the executions of the first `k` segments of the routed
statement, for some `k`, and nothing else: whatever `configs` holds for the
table, no call is added for the double-write statement, which reaches the
wrapped capability only if it is itself one of the segments. -/
theorem execContext_fullScan_no_doubleWrite {σ : Type} (pool : ConnPool σ) (w : World σ)
    (ctx : Context) (query : String) (args : List Value) (ftQuery stQuery table : String)
    (newArgs : List Value)
    (hr : pool.sharding.resolve query args = ⟨ftQuery, stQuery, table, newArgs, true, none⟩) :
    (∃ k, k ≤ (stringsSplit stQuery unionAll).length ∧
        (pool.ExecContext w ctx query args).2.calls
          = w.calls ++ ((stringsSplit stQuery unionAll).take k).map
              (fun q => Call.exec ctx q args)) ∧
      (∀ c ∈ (pool.ExecContext w ctx query args).2.calls.drop w.calls.length,
        ∃ q ∈ stringsSplit stQuery unionAll, c = Call.exec ctx q args) ∧
      (ftQuery ∉ stringsSplit stQuery unionAll →
        Call.exec ctx ftQuery args
          ∉ (pool.ExecContext w ctx query args).2.calls.drop w.calls.length) := by
  rw [execContext_fullScan_eq pool w ctx query args ftQuery stQuery table newArgs hr]
  obtain ⟨k, hk, _, hcalls⟩ := execFanOut_calls_taken pool.base ctx args
    (stringsSplit stQuery unionAll) [] (w.Store "last_query" stQuery)
  rw [store_calls] at hcalls
  have hmem : ∀ c ∈ (execFanOut pool.base ctx args (stringsSplit stQuery unionAll) []
      (w.Store "last_query" stQuery)).2.calls.drop w.calls.length,
      ∃ q ∈ stringsSplit stQuery unionAll, c = Call.exec ctx q args := by
    intro c hc
    rw [hcalls, List.drop_left] at hc
    obtain ⟨q, hq, rfl⟩ := List.mem_map.mp hc
    exact ⟨q, List.mem_of_mem_take hq, rfl⟩
  refine ⟨⟨k, hk, hcalls⟩, hmem, ?_⟩
  intro hft hin
  obtain ⟨q, hq, heq⟩ := hmem _ hin
  injection heq with _ h2 _
  exact hft (h2 ▸ hq)

/-- Witness of C13: the table `orders` is configured for double write and the
resolver supplies the double-write statement `INSERT INTO orders`; the two
segments are executed and the double-write statement is not. -/
theorem execContext_fullScan_no_doubleWrite_witness :
    demoPoolB.sharding.configs "orders" = some ⟨true⟩ ∧
      (demoPoolB.ExecContext demoWorld demoCtx "fandw" [Value.int 5]).2.calls
        = [Call.exec demoCtx "A" [Value.int 5], Call.exec demoCtx "BB" [Value.int 5]] ∧
      Call.exec demoCtx "INSERT INTO orders" [Value.int 5]
        ∉ (demoPoolB.ExecContext demoWorld demoCtx "fandw" [Value.int 5]).2.calls.drop
            demoWorld.calls.length :=
  ⟨by decide, by decide,
    (execContext_fullScan_no_doubleWrite demoPoolB demoWorld demoCtx "fandw" [Value.int 5]
      "INSERT INTO orders" "A UNION ALL BB" "orders" [Value.int 5, Value.int 1]
      (by decide)).2.2 (by decide)⟩

/-! ## The transaction methods -/

/-- C14: `Commit`, and likewise `Rollback`, returns nil and leaves the world
as it was (no call reaches the wrapped capability) when the wrapped capability
is a `*sql.Tx`, whether or not it has the methods `Commit` and `Rollback`;
otherwise, when the wrapped capability is a `gorm.TxCommitter`, it calls that
method exactly once and returns its error; otherwise it returns nil and leaves
the world as it was. -/
theorem commit_rollback_dispatch {σ : Type} (pool : ConnPool σ) (w : World σ) :
    (pool.base.isSqlTx = true → pool.Commit w = (none, w) ∧ pool.Rollback w = (none, w)) ∧
      (pool.base.isSqlTx = false → ∀ c, pool.base.asTxCommitter = some c →
        ((pool.Commit w).1 = (c.Commit w.conn).1 ∧
            (pool.Commit w).2.calls = w.calls ++ [Call.commit] ∧
            (pool.Commit w).2.conn = (c.Commit w.conn).2) ∧
          ((pool.Rollback w).1 = (c.Rollback w.conn).1 ∧
            (pool.Rollback w).2.calls = w.calls ++ [Call.rollback] ∧
            (pool.Rollback w).2.conn = (c.Rollback w.conn).2)) ∧
      (pool.base.isSqlTx = false → pool.base.asTxCommitter = none →
        pool.Commit w = (none, w) ∧ pool.Rollback w = (none, w)) := by
  refine ⟨fun htx => ?_, fun htx c hc => ?_, fun htx hc => ?_⟩
  · simp [ConnPool.Commit, ConnPool.Rollback, htx]
  · simp [ConnPool.Commit, ConnPool.Rollback, htx, hc]
  · simp [ConnPool.Commit, ConnPool.Rollback, htx, hc]

/-- Witness of C14: over a `*sql.Tx` whose own `Commit` and `Rollback` would
fail, both methods return nil and nothing changes; over a committer that is
not a `*sql.Tx`, `Rollback` is called once and its error is returned; over a
capability without these methods both return nil. -/
theorem commit_rollback_dispatch_witness :
    ((ConnPool.mk demoSharding demoSqlTx).Commit demoWorld = (none, demoWorld) ∧
        (ConnPool.mk demoSharding demoSqlTx).Rollback demoWorld = (none, demoWorld)) ∧
      (((ConnPool.mk demoSharding demoTxBase).Rollback demoWorld).1
          = some (GoError.other "rollback failed") ∧
        ((ConnPool.mk demoSharding demoTxBase).Rollback demoWorld).2.calls
          = [] ++ [Call.rollback]) ∧
      (demoPool.Commit demoWorld = (none, demoWorld) ∧
        demoPool.Rollback demoWorld = (none, demoWorld)) :=
  ⟨(commit_rollback_dispatch (ConnPool.mk demoSharding demoSqlTx) demoWorld).1 rfl,
    ⟨((commit_rollback_dispatch (ConnPool.mk demoSharding demoTxBase) demoWorld).2.1 rfl
        _ rfl).2.1,
      ((commit_rollback_dispatch (ConnPool.mk demoSharding demoTxBase) demoWorld).2.1 rfl
        _ rfl).2.2.1⟩,
    (commit_rollback_dispatch demoPool demoWorld).2.2 rfl rfl⟩

/-- C15: when the wrapped capability is not a `gorm.ConnPoolBeginner`,
`BeginTx` returns the receiver pool itself with a nil error and leaves the
world as it was (no underlying call); when it is one, `BeginTx` calls the
wrapped `BeginTx` once, with the same context and options, and returns the
capability and the error which that call returned. -/
theorem beginTx_dispatch {σ : Type} (pool : ConnPool σ) (w : World σ) (ctx : Context)
    (opt : Option TxOptions) :
    (pool.base.asConnPoolBeginner = none →
        pool.BeginTx w ctx opt = ((some (ConnPoolValue.sharding pool), none), w)) ∧
      (∀ b, pool.base.asConnPoolBeginner = some b →
        (pool.BeginTx w ctx opt).1
            = ((b.BeginTx w.conn ctx opt).1.1.map ConnPoolValue.foreign,
                (b.BeginTx w.conn ctx opt).1.2) ∧
          (pool.BeginTx w ctx opt).2.calls = w.calls ++ [Call.beginTx ctx opt] ∧
          (pool.BeginTx w ctx opt).2.conn = (b.BeginTx w.conn ctx opt).2) := by
  refine ⟨fun hb => ?_, fun b hb => ?_⟩
  · simp [ConnPool.BeginTx, hb]
  · simp [ConnPool.BeginTx, hb]

/-- Witness of C15: the pool over a capability that cannot begin a transaction
returns itself; the pool over one that can returns the handle it was given. -/
theorem beginTx_dispatch_witness :
    demoPool.BeginTx demoWorld demoCtx (some ⟨2, true⟩)
        = ((some (ConnPoolValue.sharding demoPool), none), demoWorld) ∧
      (((ConnPool.mk demoSharding demoTxBase).BeginTx demoWorld demoCtx (some ⟨2, true⟩)).1
          = (some (ConnPoolValue.foreign ⟨1⟩), none) ∧
        ((ConnPool.mk demoSharding demoTxBase).BeginTx demoWorld demoCtx (some ⟨2, true⟩)).2.calls
          = [] ++ [Call.beginTx demoCtx (some ⟨2, true⟩)] ∧
        ((ConnPool.mk demoSharding demoTxBase).BeginTx demoWorld demoCtx (some ⟨2, true⟩)).2.conn
          = 1) :=
  ⟨(beginTx_dispatch demoPool demoWorld demoCtx (some ⟨2, true⟩)).1 rfl,
    (beginTx_dispatch (ConnPool.mk demoSharding demoTxBase) demoWorld demoCtx
      (some ⟨2, true⟩)).2 _ rfl⟩

end GormSharding

namespace GormSharding

/-! ## `strings.Split` and `strings.Join` -/

theorem splitChars_ne_nil (sep : List Char) (k : Nat) (s : List Char) :
    splitChars sep k s ≠ [] := by
  induction s generalizing k with
  | nil => cases k <;> simp [splitChars]
  | cons c cs ih =>
    cases k with
    | succ k => simpa [splitChars] using ih k
    | zero =>
      unfold splitChars
      split
      · simp
      · split <;> simp

theorem splitChars_skip (sep : List Char) (k : Nat) (s : List Char) :
    splitChars sep k s = splitChars sep 0 (s.drop k) := by
  induction s generalizing k with
  | nil => cases k <;> simp [splitChars]
  | cons c cs ih =>
    cases k with
    | zero => rfl
    | succ k => simpa [splitChars] using ih k

theorem joinChars_cons (sep x : List Char) (l : List (List Char)) (hl : l ≠ []) :
    joinChars sep (x :: l) = x ++ sep ++ joinChars sep l := by
  cases l with
  | nil => exact absurd rfl hl
  | cons y rest => rfl

theorem drop_of_isPrefixOf (sep : List Char) (hsep : sep ≠ []) (c : Char) (cs : List Char)
    (hp : sep.isPrefixOf (c :: cs) = true) :
    sep ++ cs.drop (sep.length - 1) = c :: cs ∧ (cs.drop (sep.length - 1)).length ≤ cs.length := by
  obtain ⟨t, ht⟩ := List.isPrefixOf_iff_prefix.mp hp
  cases sep with
  | nil => exact absurd rfl hsep
  | cons d ds =>
    simp only [List.cons_append, List.cons.injEq] at ht
    obtain ⟨rfl, rfl⟩ := ht
    simp

theorem joinChars_splitChars_bounded (sep : List Char) (hsep : sep ≠ []) (n : Nat) :
    ∀ s : List Char, s.length ≤ n → joinChars sep (splitChars sep 0 s) = s := by
  induction n with
  | zero =>
    intro s hs
    have : s = [] := List.length_eq_zero.mp (Nat.le_zero.mp hs)
    subst this
    rfl
  | succ n ih =>
    intro s hs
    cases s with
    | nil => rfl
    | cons c cs =>
      have hcs : cs.length ≤ n := by simpa using hs
      by_cases hp : sep.isPrefixOf (c :: cs) = true
      · have hd := drop_of_isPrefixOf sep hsep c cs hp
        have hrec := ih (cs.drop (sep.length - 1)) (Nat.le_trans hd.2 hcs)
        have hunf : splitChars sep 0 (c :: cs)
            = [] :: splitChars sep 0 (cs.drop (sep.length - 1)) := by
          rw [← splitChars_skip]
          simp [splitChars, hp]
        rw [hunf, joinChars_cons sep [] _ (splitChars_ne_nil sep 0 _), hrec]
        simpa using hd.1
      · have hrec := ih cs hcs
        cases hsplit : splitChars sep 0 cs with
        | nil => exact absurd hsplit (splitChars_ne_nil sep 0 cs)
        | cons seg rest =>
          have hunf : splitChars sep 0 (c :: cs) = (c :: seg) :: rest := by
            simp [splitChars, hp, hsplit]
          rw [hunf]
          rw [hsplit] at hrec
          cases rest with
          | nil =>
            simp only [joinChars] at hrec ⊢
            rw [hrec]
          | cons y rest2 =>
            simp only [joinChars] at hrec ⊢
            rw [← hrec]
            simp

theorem joinChars_splitChars (sep : List Char) (hsep : sep ≠ []) (s : List Char) :
    joinChars sep (splitChars sep 0 s) = s :=
  joinChars_splitChars_bounded sep hsep s.length s (Nat.le_refl _)

end GormSharding

namespace GormSharding

theorem splitChars_head_bounded (sep : List Char) (hsep : sep ≠ []) (n : Nat) :
    ∀ s : List Char, s.length ≤ n →
      ∃ h rest t, splitChars sep 0 s = h :: rest ∧ s = h ++ t ∧
        (∀ a b, h = a ++ b → b ≠ [] → ¬ sep <+: b ++ t) ∧
        (∀ seg ∈ rest, ¬ sep <:+: seg) := by
  have hhead : ∀ (h t : List Char), (∀ a b, h = a ++ b → b ≠ [] → ¬ sep <+: b ++ t) →
      ¬ sep <:+: h := by
    intro h t hok hinf
    obtain ⟨a, d, had⟩ := hinf
    have hne : sep ++ d ≠ [] := by
      intro hnil
      exact hsep (List.append_eq_nil.mp hnil).1
    refine hok a (sep ++ d) (by rw [← had, List.append_assoc]) hne ⟨d ++ t, ?_⟩
    rw [List.append_assoc]
  induction n with
  | zero =>
    intro s hs
    have : s = [] := List.length_eq_zero.mp (Nat.le_zero.mp hs)
    subst this
    refine ⟨[], [], [], rfl, rfl, ?_, ?_⟩
    · intro a b hab hb
      have := (List.append_eq_nil.mp hab.symm).2
      exact absurd this hb
    · intro seg hseg
      cases hseg
  | succ n ih =>
    intro s hs
    cases s with
    | nil =>
      refine ⟨[], [], [], rfl, rfl, ?_, ?_⟩
      · intro a b hab hb
        have := (List.append_eq_nil.mp hab.symm).2
        exact absurd this hb
      · intro seg hseg
        cases hseg
    | cons c cs =>
      have hcs : cs.length ≤ n := by simpa using hs
      by_cases hp : sep.isPrefixOf (c :: cs) = true
      · have hd := drop_of_isPrefixOf sep hsep c cs hp
        obtain ⟨h2, rest2, t2, hsplit2, _, hok2, hrest2⟩ :=
          ih (cs.drop (sep.length - 1)) (Nat.le_trans hd.2 hcs)
        have hunf : splitChars sep 0 (c :: cs)
            = [] :: splitChars sep 0 (cs.drop (sep.length - 1)) := by
          rw [← splitChars_skip]
          simp [splitChars, hp]
        refine ⟨[], h2 :: rest2, c :: cs, by rw [hunf, hsplit2], rfl, ?_, ?_⟩
        · intro a b hab hb
          have := (List.append_eq_nil.mp hab.symm).2
          exact absurd this hb
        · intro seg hseg
          rcases List.mem_cons.mp hseg with rfl | hmem
          · exact hhead _ t2 hok2
          · exact hrest2 seg hmem
      · obtain ⟨h2, rest2, t2, hsplit2, hcat2, hok2, hrest2⟩ := ih cs hcs
        have hunf : splitChars sep 0 (c :: cs) = (c :: h2) :: rest2 := by
          simp [splitChars, hp, hsplit2]
        refine ⟨c :: h2, rest2, t2, hunf, by rw [hcat2]; rfl, ?_, hrest2⟩
        intro a b hab hb hpre
        cases a with
        | nil =>
          simp only [List.nil_append] at hab
          rw [← hab, List.cons_append, ← hcat2] at hpre
          exact hp (List.isPrefixOf_iff_prefix.mpr hpre)
        | cons a0 a1 =>
          simp only [List.cons_append, List.cons.injEq] at hab
          exact hok2 a1 b hab.2 hb hpre

theorem splitChars_no_sep (sep : List Char) (hsep : sep ≠ []) (s : List Char) :
    ∀ seg ∈ splitChars sep 0 s, ¬ sep <:+: seg := by
  obtain ⟨h, rest, t, hsplit, _, hok, hrest⟩ :=
    splitChars_head_bounded sep hsep s.length s (Nat.le_refl _)
  intro seg hseg
  rw [hsplit] at hseg
  rcases List.mem_cons.mp hseg with rfl | hmem
  · intro hinf
    obtain ⟨a, d, had⟩ := hinf
    have hne : sep ++ d ≠ [] := by
      intro hnil
      exact hsep (List.append_eq_nil.mp hnil).1
    refine hok a (sep ++ d) (by rw [← had, List.append_assoc]) hne ⟨d ++ t, ?_⟩
    rw [List.append_assoc]
  · exact hrest seg hmem

theorem splitChars_of_no_sep (sep : List Char) (s : List Char) (h : ¬ sep <:+: s) :
    splitChars sep 0 s = [s] := by
  induction s with
  | nil => rfl
  | cons c cs ih =>
    have hp : ¬ sep.isPrefixOf (c :: cs) = true := by
      intro hp
      exact h (List.isPrefixOf_iff_prefix.mp hp).isInfix
    have hcs : ¬ sep <:+: cs := by
      intro hinf
      exact h (hinf.trans (List.suffix_cons c cs).isInfix)
    simp [splitChars, hp, ih hcs]

end GormSharding

namespace GormSharding

theorem unionAll_toList_ne_nil : unionAll.toList ≠ [] := by decide

theorem map_toList_stringsSplit (s sep : String) :
    (stringsSplit s sep).map String.toList = splitChars sep.toList 0 s.toList := by
  unfold stringsSplit
  rw [List.map_map]
  have : (String.toList ∘ String.mk) = id := by
    funext l
    rfl
  rw [this, List.map_id]

theorem stringsJoin_stringsSplit (s sep : String) (hsep : sep.toList ≠ []) :
    stringsJoin (stringsSplit s sep) sep = s := by
  unfold stringsJoin
  rw [map_toList_stringsSplit, joinChars_splitChars sep.toList hsep]
  rfl

theorem stringsSplit_ne_nil (s sep : String) : stringsSplit s sep ≠ [] := by
  unfold stringsSplit
  intro h
  exact splitChars_ne_nil sep.toList 0 s.toList (List.map_eq_nil_iff.mp h)

theorem stringsSplit_no_sep (s sep : String) (hsep : sep.toList ≠ []) :
    ∀ seg ∈ stringsSplit s sep, ¬ stringsContains seg sep := by
  intro seg hseg
  unfold stringsSplit at hseg
  obtain ⟨l, hl, rfl⟩ := List.mem_map.mp hseg
  exact splitChars_no_sep sep.toList hsep s.toList l hl

theorem stringsSplit_of_not_contains (s sep : String) (h : ¬ stringsContains s sep) :
    stringsSplit s sep = [s] := by
  unfold stringsSplit
  rw [splitChars_of_no_sep sep.toList s.toList h]
  rfl

theorem joinChars_append_sep (sep x y : List Char) (l : List (List Char)) :
    joinChars sep ((x ++ sep ++ y) :: l) = x ++ sep ++ joinChars sep (y :: l) := by
  cases l with
  | nil => rfl
  | cons z rest => simp [joinChars]

theorem intercalate_go_eq (sep : String) (l : List String) (acc : String) :
    String.intercalate.go acc sep l
      = String.mk (joinChars sep.toList (acc.toList :: l.map String.toList)) := by
  induction l generalizing acc with
  | nil => rfl
  | cons a rest ih =>
    rw [String.intercalate.go, ih]
    simp only [String.toList, String.data_append, List.map_cons]
    rw [joinChars_append_sep]
    rfl

theorem stringsJoin_eq_intercalate (elems : List String) (sep : String) :
    stringsJoin elems sep = sep.intercalate elems := by
  cases elems with
  | nil => rfl
  | cons a rest =>
    rw [String.intercalate, intercalate_go_eq]
    rfl

end GormSharding

namespace GormSharding

theorem execStatements_map_exec (ctx : Context) (args : List Value) (segs : List String) :
    execStatements (segs.map (fun q => Call.exec ctx q args)) = segs := by
  induction segs with
  | nil => rfl
  | cons q qs ih =>
    simp only [execStatements, List.map_cons, List.filterMap_cons] at ih ⊢
    rw [ih]

/-- C17: the segments that a full-scan `ExecContext` sends lose and add no
text: for every routed statement `s`, joining `strings.Split(s, " UNION ALL ")`
with `" UNION ALL "` gives back `s`, and no segment contains `" UNION ALL "`;
and when every per-shard execution succeeds, the statements that the wrapped
capability received, in the order received, are these segments, so that
joining them gives back `s`. -/
theorem fullScan_segments_roundtrip (s : String) :
    stringsJoin (stringsSplit s unionAll) unionAll = s ∧
      unionAll.intercalate (stringsSplit s unionAll) = s ∧
      (∀ seg ∈ stringsSplit s unionAll, ¬ stringsContains seg unionAll) ∧
      (∀ (σ : Type) (pool : ConnPool σ) (w : World σ) (ctx : Context) (query : String)
        (args : List Value) (ftQuery table : String) (newArgs : List Value),
        pool.sharding.resolve query args = ⟨ftQuery, s, table, newArgs, true, none⟩ →
        (∀ o ∈ shardRuns pool.base ctx args (stringsSplit s unionAll) w.conn, o.2 = none) →
        execStatements ((pool.ExecContext w ctx query args).2.calls.drop w.calls.length)
            = stringsSplit s unionAll ∧
          stringsJoin
              (execStatements ((pool.ExecContext w ctx query args).2.calls.drop w.calls.length))
              unionAll = s) := by
  have hjoin := stringsJoin_stringsSplit s unionAll unionAll_toList_ne_nil
  refine ⟨hjoin, ?_, stringsSplit_no_sep s unionAll unionAll_toList_ne_nil, ?_⟩
  · rw [← stringsJoin_eq_intercalate]
    exact hjoin
  · intro σ pool w ctx query args ftQuery table newArgs hr hok
    rw [execContext_fullScan_eq pool w ctx query args ftQuery s table newArgs hr]
    have h := (execFanOut_ok pool.base ctx args (stringsSplit s unionAll) []
      (w.Store "last_query" s) hok).1
    rw [store_calls] at h
    have hsent : execStatements
        ((execFanOut pool.base ctx args (stringsSplit s unionAll) []
          (w.Store "last_query" s)).2.calls.drop w.calls.length) = stringsSplit s unionAll := by
      rw [h, List.drop_left, execStatements_map_exec]
    rw [hsent]
    exact ⟨rfl, hjoin⟩

/-- Witness of C17: the three statements received by the wrapped capability
join back to the routed statement. -/
theorem fullScan_segments_roundtrip_witness :
    execStatements
          ((demoPool.ExecContext demoWorld demoCtx "fan" [Value.int 5]).2.calls.drop
            demoWorld.calls.length)
        = stringsSplit "A UNION ALL BB UNION ALL CCC" unionAll ∧
      stringsJoin
          (execStatements
            ((demoPool.ExecContext demoWorld demoCtx "fan" [Value.int 5]).2.calls.drop
              demoWorld.calls.length))
          unionAll = "A UNION ALL BB UNION ALL CCC" :=
  (fullScan_segments_roundtrip "A UNION ALL BB UNION ALL CCC").2.2.2 Nat demoPool demoWorld
    demoCtx "fan" [Value.int 5] "" "orders" [Value.int 5, Value.int 1] (by decide) (by decide)

/-- C18: every full-scan `ExecContext` call attempts at least one underlying
execution, that of the first segment, since the split never yields zero
segments (the empty statement yields the one empty segment); when the routed
statement does not contain `" UNION ALL "`, the only underlying call is the
execution of the whole routed statement, and if that execution returns a
result `r` and a nil error, the caller receives a `mergedResult`: its count is
the affected-row count of `r`, or `0` if `r` does not give one, and its
`LastInsertId` returns an error, whatever `r.LastInsertId` returns. -/
theorem execContext_fullScan_at_least_one {σ : Type} (pool : ConnPool σ) (w : World σ)
    (ctx : Context) (query : String) (args : List Value) (ftQuery stQuery table : String)
    (newArgs : List Value)
    (hr : pool.sharding.resolve query args = ⟨ftQuery, stQuery, table, newArgs, true, none⟩) :
    stringsSplit stQuery unionAll ≠ [] ∧ stringsSplit "" unionAll = [""] ∧
      (∃ q, (stringsSplit stQuery unionAll).head? = some q ∧
        w.calls ++ [Call.exec ctx q args] <+: (pool.ExecContext w ctx query args).2.calls) ∧
      w.calls.length + 1 ≤ (pool.ExecContext w ctx query args).2.calls.length ∧
      (¬ stringsContains stQuery unionAll →
        (pool.ExecContext w ctx query args).2.calls = w.calls ++ [Call.exec ctx stQuery args] ∧
        ∀ r, (pool.base.ExecContext w.conn ctx stQuery args).1 = (some r, none) →
          ∃ count, (pool.ExecContext w ctx query args).1
              = .returned (some (SqlResult.mergedResult count), none) ∧
            (SqlResult.mergedResult count).RowsAffected = (count, none) ∧
            (∀ a, r.RowsAffected = (a, none) → count = int64Wrap a) ∧
            (∀ a, r.RowsAffected = (a, none) → -2 ^ 63 ≤ a → a < 2 ^ 63 → count = a) ∧
            (r.RowsAffected.2 ≠ none → count = 0) ∧
            (SqlResult.mergedResult count).LastInsertId.2 ≠ none) := by
  have hne := stringsSplit_ne_nil stQuery unionAll
  rw [execContext_fullScan_eq pool w ctx query args ftQuery stQuery table newArgs hr]
  obtain ⟨k, hk, hk1, hcalls⟩ := execFanOut_calls_taken pool.base ctx args
    (stringsSplit stQuery unionAll) [] (w.Store "last_query" stQuery)
  rw [store_calls] at hcalls
  have hk1 := hk1 hne
  refine ⟨hne, by decide, ?_, ?_, ?_⟩
  · cases hsegs : stringsSplit stQuery unionAll with
    | nil => exact absurd hsegs hne
    | cons q qs =>
      refine ⟨q, rfl, ?_⟩
      rw [hsegs] at hcalls
      rw [hcalls]
      obtain ⟨j, rfl⟩ : ∃ j, k = j + 1 := ⟨k - 1, (Nat.sub_add_cancel hk1).symm⟩
      refine ⟨(qs.take j).map (fun q => Call.exec ctx q args), ?_⟩
      simp
  · rw [hcalls]
    simp only [List.length_append, List.length_map, List.length_take]
    omega
  · intro hnc
    rw [stringsSplit_of_not_contains stQuery unionAll hnc]
    refine ⟨?_, ?_⟩
    · simp only [execFanOut]
      cases hq : (baseExec pool.base (w.Store "last_query" stQuery) ctx stQuery args).1.2 with
      | some err => simp [baseExec, World.Store]
      | none =>
        simp only []
        cases mergeResults ([] ++ [(baseExec pool.base (w.Store "last_query" stQuery) ctx
          stQuery args).1.1]) <;> simp [baseExec, World.Store]
    · intro r hres
      have hb : (baseExec pool.base (w.Store "last_query" stQuery) ctx stQuery args).1
          = (some r, none) := hres
      have hmerge := mergeResults_map_some [r]
      refine ⟨int64Sum (rowCounts [r]), ?_, rfl, ?_, ?_, ?_, ?_⟩
      · simp only [execFanOut, hb, List.nil_append]
        simp only [List.map_cons, List.map_nil] at hmerge
        rw [hmerge]
      · intro a ha
        simp [rowCounts, ha, int64Sum, int64Add]
      · intro a ha hlo hhi
        simp [rowCounts, ha, int64Sum, int64Add, int64Wrap_of_range a hlo hhi]
      · intro hne2
        rcases hra : r.RowsAffected with ⟨a, _ | e⟩
        · rw [hra] at hne2
          exact absurd rfl hne2
        · simp [rowCounts, hra, int64Sum]
      · simp [SqlResult.LastInsertId]

end GormSharding

namespace GormSharding

/-- Witness of C18: a full scan of a statement without delimiter makes the one
execution of the whole statement; the underlying result has the identifier `1`
and the count `9`, and the caller receives a `mergedResult` with the count `9`
whose `LastInsertId` fails. -/
theorem execContext_fullScan_at_least_one_witness :
    (demoPoolB.ExecContext demoWorld demoCtx "fanone" [Value.int 5]).2.calls
        = [] ++ [Call.exec demoCtx "UPDATE t" [Value.int 5]] ∧
      ∃ count, (demoPoolB.ExecContext demoWorld demoCtx "fanone" [Value.int 5]).1
          = .returned (some (SqlResult.mergedResult count), none) ∧
        (SqlResult.mergedResult count).RowsAffected = (count, none) ∧
        (∀ a, (SqlResult.driver (1, none) (9, none)).RowsAffected = (a, none) →
          count = int64Wrap a) ∧
        (∀ a, (SqlResult.driver (1, none) (9, none)).RowsAffected = (a, none) →
          -2 ^ 63 ≤ a → a < 2 ^ 63 → count = a) ∧
        ((SqlResult.driver (1, none) (9, none)).RowsAffected.2 ≠ none → count = 0) ∧
        (SqlResult.mergedResult count).LastInsertId.2 ≠ none :=
  have h := (execContext_fullScan_at_least_one demoPoolB demoWorld demoCtx "fanone"
    [Value.int 5] "INSERT INTO orders" "UPDATE t" "orders" [Value.int 5, Value.int 1]
    (by decide)).2.2.2.2 (by unfold stringsContains; decide)
  ⟨h.1, h.2 (SqlResult.driver (1, none) (9, none)) (by decide)⟩

end GormSharding
